import Mathlib

/-!
Verification of the FNOL (First Notice of Loss) claims-processing core:
a shallow embedding of `src/routing/engine.py` and `src/extraction/parser.py`
(data model from `src/schemas.py`, threshold default from `src/config.py`).

Strings are modelled as `List Char` (`Str`).  Python `str` operations
(`strip`, `lower`, `upper`, truthiness) are embedded for the ASCII range,
which is the character set the parser's patterns and catalogs use.
Money amounts (Python floats holding parsed decimal numbers) are modelled
as exact rationals `ℚ`; the embedding only ever compares them, and the
compared values are decimal literal parses.
-/

abbrev Str := List Char

/-- Python whitespace set for `str.strip` / regex `\s` (ASCII range). -/
def isPySpace (c : Char) : Bool :=
  c = ' ' || c = '\t' || c = '\n' || c = '\r' || c = '\x0b' || c = '\x0c'

/-- Python `str.strip()`. -/
def pyStrip (s : Str) : Str :=
  ((s.dropWhile isPySpace).reverse.dropWhile isPySpace).reverse

/-- Python `str.lower()` (ASCII). -/
def pyLower (s : Str) : Str := s.map Char.toLower

/-- Python `str.upper()` (ASCII). -/
def pyUpper (s : Str) : Str := s.map Char.toUpper

/-- Truthiness of a Python `Optional[str]`: `None` and `""` are falsy. -/
def optStrTruthy : Option Str → Bool
  | none => false
  | some s => !s.isEmpty

/-- Python `a or b` on `Optional[float]` operands: `None` and `0.0` are falsy. -/
def pyOrQ : Option ℚ → Option ℚ → Option ℚ
  | none, y => y
  | some x, y => if x = 0 then y else some x

/-- Calendar date as produced by `datetime.date`. -/
structure PyDate where
  year : Nat
  month : Nat
  day : Nat
deriving DecidableEq, Repr

/-- Schema PolicyInfo (src/schemas.py). -/
structure PolicyInfo where
  policy_number : Option Str := none
  policyholder_name : Option Str := none
  effective_date_start : Option PyDate := none
  effective_date_end : Option PyDate := none
deriving DecidableEq, Repr

/-- Schema IncidentInfo (src/schemas.py). -/
structure IncidentInfo where
  date : Option PyDate := none
  time : Option Str := none
  location_street : Option Str := none
  location_city_state_zip : Option Str := none
  location_country : Option Str := none
  description : Option Str := none
deriving DecidableEq, Repr

/-- Schema InvolvedParty (src/schemas.py). -/
structure InvolvedParty where
  name : Option Str := none
  address : Option Str := none
  phone : Option Str := none
  email : Option Str := none
  relation_to_insured : Option Str := none
deriving DecidableEq, Repr

/-- Schema AssetDetails (src/schemas.py). -/
structure AssetDetails where
  asset_type : Option Str := none
  asset_id : Option Str := none
  make : Option Str := none
  model : Option Str := none
  year : Option Int := none
  estimated_damage : Option ℚ := none
  initial_estimate : Option ℚ := none
deriving DecidableEq, Repr

/-- Schema ExtractedFields (src/schemas.py). -/
structure ExtractedFields where
  policy : PolicyInfo := {}
  incident : IncidentInfo := {}
  claimant : Option InvolvedParty := none
  third_parties : List InvolvedParty := []
  contact_details : Option InvolvedParty := none
  asset : Option AssetDetails := none
  claim_type : Option Str := none
  attachments : List Str := []
  initial_estimate : Option ℚ := none
deriving DecidableEq, Repr

/-- List MANDATORY_FIELDS (src/schemas.py). -/
def MANDATORY_FIELDS : List String :=
  ["policy_number", "policyholder_name", "incident_date", "incident_location",
   "incident_description", "claim_type", "initial_estimate_or_estimated_damage"]

/-! ## Routing engine (`src/routing/engine.py`) -/

/-- Negation of the missing-test `not (x and x.strip())`: the field is present and non-blank. -/
def strFieldPresent : Option Str → Bool
  | none => false
  | some s => !s.isEmpty && !(pyStrip s).isEmpty

/-- Truthiness of `loc = (i.location_street or "").strip() or (i.location_city_state_zip or "").strip()` (engine.py lines 26-27). -/
def locPresent (i : IncidentInfo) : Bool :=
  !(pyStrip (i.location_street.getD [])).isEmpty ||
  !(pyStrip (i.location_city_state_zip.getD [])).isEmpty

/-- Damage computation of `get_missing_mandatory_fields` (engine.py lines 33-37). -/
def damageOfCheck (e : ExtractedFields) : Option ℚ :=
  let damage : Option ℚ :=
    match e.asset with
    | some a => pyOrQ a.estimated_damage a.initial_estimate
    | none => none
  match e.initial_estimate with
  | some v => some v
  | none => damage

/-- Damage computation of `compute_route` (engine.py lines 80-84). -/
def damageOfRoute (e : ExtractedFields) : Option ℚ :=
  let damage : Option ℚ :=
    match e.asset with
    | some a => pyOrQ a.estimated_damage a.initial_estimate
    | none => none
  match e.initial_estimate with
  | some v => some v
  | none => damage

/-- Function get_missing_mandatory_fields (engine.py lines 15-40); the sequential
`missing.append(...)` calls become a concatenation in the same order. -/
def get_missing_mandatory_fields (e : ExtractedFields) : List String :=
  (if strFieldPresent e.policy.policy_number then [] else ["policy_number"]) ++
  (if strFieldPresent e.policy.policyholder_name then [] else ["policyholder_name"]) ++
  (if e.incident.date.isSome then [] else ["incident_date"]) ++
  (if locPresent e.incident then [] else ["incident_location"]) ++
  (if strFieldPresent e.incident.description then [] else ["incident_description"]) ++
  (if strFieldPresent e.claim_type then [] else ["claim_type"]) ++
  (if (damageOfCheck e).isSome then [] else ["initial_estimate_or_estimated_damage"])

/-- Regex word character `\w` (ASCII). -/
def isWordChar (c : Char) : Bool := c.isAlpha || c.isDigit || c = '_'

/-- Case-insensitive literal match at the head of `s`. -/
def ciStartsWith : Str → Str → Bool
  | [], _ => true
  | _ :: _, [] => false
  | c :: w, d :: s => (Char.toLower d == Char.toLower c) && ciStartsWith w s

/-- Word-boundary keyword match at the head of `s`, where `prev` is the character just
before this position (`none` at the start of the text) and `w` is a keyword
consisting of letters only. -/
def wordAtHead (w : Str) (prev : Option Char) (s : Str) : Bool :=
  (match prev with
   | none => true
   | some c => !isWordChar c) &&
  ciStartsWith w s &&
  (match s.drop w.length with
   | [] => true
   | c :: _ => !isWordChar c)

def containsWordCIAux (w : Str) (prev : Option Char) : Str → Bool
  | [] => false
  | c :: rest => wordAtHead w prev (c :: rest) || containsWordCIAux w (some c) rest

/-- Success of `re.search` for the word pattern of `w` with IGNORECASE, `w` letters-only. -/
def containsWordCI (w : Str) (s : Str) : Bool := containsWordCIAux w none s

/-- Keywords of `INVESTIGATION_KEYWORDS` (engine.py lines 9-12), searched as whole words, case-insensitively. -/
def INVESTIGATION_KEYWORDS : List Str := ["fraud".data, "inconsistent".data, "staged".data]

/-- Default of settings.fast_track_damage_threshold (config.py line 12). -/
def fast_track_damage_threshold : ℚ := 25000

/-- Decimal rendering of a money amount in reasoning text (abstracting Python's
float formatting; no claim inspects this string). -/
def formatQ (q : ℚ) : String := toString q

/-- The keyword search applied by routing rule 2 (engine.py lines 67-68). -/
def hasInvestigationKeyword (e : ExtractedFields) : Bool :=
  INVESTIGATION_KEYWORDS.any
    (fun w => containsWordCI w (pyStrip (e.incident.description.getD [])))

/-- The injury test of routing rule 3 (engine.py line 74). -/
def isInjuryType (e : ExtractedFields) : Bool :=
  pyLower (pyStrip (e.claim_type.getD [])) == "injury".data

/-- Function compute_route (engine.py lines 43-94). -/
def compute_route (e : ExtractedFields) (missing : List String) (threshold? : Option ℚ) :
    String × String :=
  let threshold := threshold?.getD fast_track_damage_threshold
  if !missing.isEmpty then
    ("Manual review",
     "Missing mandatory field(s): " ++ String.intercalate ", " missing ++ ". Cannot auto-route.")
  else if hasInvestigationKeyword e then
    ("Investigation Flag",
     "Description contains terms suggesting possible fraud or inconsistency; flagged for investigation.")
  else if isInjuryType e then
    ("Specialist Queue", "Claim type is injury; routed to specialist queue.")
  else
    match damageOfRoute e with
    | some damage =>
        if damage < threshold then
          ("Fast-track",
           "Estimated damage (" ++ formatQ damage ++ ") is below threshold (" ++
             formatQ threshold ++ "); eligible for fast-track.")
        else
          ("Standard",
           "All mandatory fields present; no special flags; above fast-track threshold; routed to standard workflow.")
    | none =>
        ("Standard",
         "All mandatory fields present; no special flags; above fast-track threshold; routed to standard workflow.")

/-! ## Regex matching framework

A matcher takes the remaining input and returns the list of possible
remainders after a match, in the backtracking preference order of Python's
`re` engine (depth-first, greedy quantifiers longest-first, lazy shortest-first,
alternatives left-to-right). -/

/-- Matcher succeeding without consuming input. -/
def epsM : Str → List Str := fun s => [s]

/-- Case-sensitive literal. -/
def litM (w : Str) : Str → List Str := fun s =>
  if w.isPrefixOf s then [s.drop w.length] else []

/-- Case-insensitive literal (patterns compiled with `re.IGNORECASE`). -/
def litCIM (w : Str) : Str → List Str := fun s =>
  if ciStartsWith w s then [s.drop w.length] else []

/-- Greedy `[class]*`. -/
def classStarM (p : Char → Bool) : Str → List Str := fun s =>
  let n := (s.takeWhile p).length
  (List.range (n + 1)).map (fun k => s.drop (n - k))

/-- Greedy `[class]+`. -/
def classPlusM (p : Char → Bool) : Str → List Str := fun s =>
  let n := (s.takeWhile p).length
  (List.range n).map (fun k => s.drop (n - k))

/-- Lazy `[class]+?`. -/
def classLazyPlusM (p : Char → Bool) : Str → List Str := fun s =>
  let n := (s.takeWhile p).length
  (List.range n).map (fun k => s.drop (k + 1))

/-- Greedy `[class]{lo,hi}`. -/
def classRepM (p : Char → Bool) (lo hi : Nat) : Str → List Str := fun s =>
  let n := min (s.takeWhile p).length hi
  if n < lo then [] else (List.range (n + 1 - lo)).map (fun k => s.drop (n - k))

/-- Exact `[class]{n}`. -/
def classExactM (p : Char → Bool) (n : Nat) : Str → List Str := fun s =>
  if n ≤ (s.takeWhile p).length then [s.drop n] else []

/-- Greedy `[class]{lo,}`. -/
def classAtLeastM (p : Char → Bool) (lo : Nat) : Str → List Str := fun s =>
  let n := (s.takeWhile p).length
  if n < lo then [] else (List.range (n + 1 - lo)).map (fun k => s.drop (n - k))

/-- Sequencing of matchers (depth-first order). -/
def seqM (m1 m2 : Str → List Str) : Str → List Str := fun s => (m1 s).flatMap m2

/-- Sequencing of a list of matchers. -/
def seqL (ms : List (Str → List Str)) : Str → List Str := ms.foldr seqM epsM

/-- Alternation, left alternative preferred. -/
def altM (m1 m2 : Str → List Str) : Str → List Str := fun s => m1 s ++ m2 s

/-- Greedy option `(...)?`: matching branch preferred. -/
def optM (m : Str → List Str) : Str → List Str := fun s => m s ++ [s]

/-- End-of-input test of `$` without `re.MULTILINE`: at the end, or just
before a terminating newline. -/
def dollarOk (s : Str) : Bool := s.isEmpty || s == ['\n']

/-- Anchor `$`. -/
def dollarM : Str → List Str := fun s => if dollarOk s then [s] else []

/-- Positive lookahead `(?=...)` for a sub-matcher. -/
def lookM (m : Str → List Str) : Str → List Str := fun s =>
  if (m s).isEmpty then [] else [s]

/-- Negative lookahead `(?!...)` for a Boolean head test. -/
def negLookM (cond : Str → Bool) : Str → List Str := fun s =>
  if cond s then [] else [s]

/-- Attempt a pattern `a(g)b` at the current position, returning the text
consumed by the capturing group `g` of the first (preference-ordered) full
match, if any. -/
def matchPat (a g b : Str → List Str) (s : Str) : Option Str :=
  (a s).findSome? (fun s1 =>
    (g s1).findSome? (fun s2 =>
      if (b s2).isEmpty then none
      else some (s1.take (s1.length - s2.length))))

/-- Search semantics of `re.search`: attempt the pattern at each position,
leftmost match wins; returns the capture of group 1. -/
def searchCap (a g b : Str → List Str) : Str → Option Str
  | [] => matchPat a g b []
  | s@(_ :: t) =>
    match matchPat a g b s with
    | some r => some r
    | none => searchCap a g b t

/-- Frequent filler `[:\s]*`. -/
def colonWsStar : Str → List Str := classStarM (fun c => c == ':' || isPySpace c)

/-- Filler `\s*`. -/
def wsStar : Str → List Str := classStarM isPySpace

/-- Filler `\s+`. -/
def wsPlus : Str → List Str := classPlusM isPySpace

/-- Capture class `[^\n]+` (greedy). -/
def linePlus : Str → List Str := classPlusM (fun c => c != '\n')

/-- Case-insensitive words joined by `\s+`. -/
def wordsCI (ws : List Str) : Str → List Str :=
  match ws with
  | [] => epsM
  | [w] => litCIM w
  | w :: rest => seqM (litCIM w) (seqM wsPlus (wordsCI rest))

/-! ## Label/placeholder classifier (parser.py lines 59-94) -/

/-- Substring catalog `_LABEL_SUBSTRINGS` (parser.py lines 67-71). -/
def LABEL_SUBSTRINGS : List Str :=
  ["same as owner".data, "same as insured".data, "mailing address".data,
   "additional remarks".data, "may be attached".data, "if more space".data,
   "check if same".data, "phone #".data, "e-mail address".data,
   "if not at specific".data, "street address".data,
   "(first, middle, last)".data, "first, middle, last".data]

/-- Python substring test `sub in s` (exact characters). -/
def containsSub (sub : Str) : Str → Bool
  | [] => sub.isPrefixOf []
  | s@(_ :: t) => sub.isPrefixOf s || containsSub sub t

/-- Alternatives of `_LABEL_PATTERNS` (parser.py lines 60-66), in source order.
Each is a matcher for one branch of the anchored alternation, compiled with
`re.IGNORECASE`. -/
def labelAlts : List (Str → List Str) :=
  [ litCIM "OTHER".data,
    litCIM "STREET:".data,
    seqL [litCIM "CITY".data, optM (litM ",".data), wsStar, litCIM "STATE".data,
          optM (litM ",".data), wsStar, litCIM "ZIP".data, optM (litM ":".data)],
    wordsCI ["NAME".data, "OF".data, "INSURED".data],
    wordsCI ["INSURED'S".data, "MAILING".data],
    wordsCI ["PRIMARY".data, "PHONE".data],
    wordsCI ["SECONDARY".data, "E-MAIL".data],
    wordsCI ["PRIMARY".data, "E-MAIL".data],
    wordsCI ["DRIVER'S".data, "NAME".data],
    wordsCI ["OWNER'S".data, "NAME".data],
    wordsCI ["CHECK".data, "IF".data, "SAME".data],
    seqL [litCIM "PHONE".data, wsStar, litM "#".data],
    litCIM "CELL".data,
    litCIM "HOME".data,
    litCIM "BUS".data,
    seqL [litCIM "LOSS".data, wsStar, dollarM],
    wordsCI ["ACORD".data, "101".data],
    wordsCI ["ADDITIONAL".data, "REMARKS".data],
    wordsCI ["INSURED".data, "VEHICLE".data],
    litCIM "SECONDARY".data,
    litCIM "PRIMARY".data,
    litCIM "NUMBER".data,
    litCIM "VEHICLE".data ]

/-- Anchored match `_LABEL_PATTERNS.match(s)` of `^(alt|...|alt)$`: some
alternative consumes all of `s` up to a position where `$` holds. -/
def labelPatternsMatch (s : Str) : Bool :=
  labelAlts.any (fun m => (m s).any dollarOk)

/-- Regex class `[\s.:\-]` of the punctuation-only test. -/
def isPunctClass (c : Char) : Bool :=
  isPySpace c || c == '.' || c == ':' || c == '-'

/-- Test `re.match(r"^[\s.:\-]+$", s)`: as `'\n'` belongs to the class, this
is exactly a non-empty all-class string. -/
def onlyPunct (s : Str) : Bool := !s.isEmpty && s.all isPunctClass

/-- Bare placeholder words of the classifier (parser.py line 90). -/
def PLACEHOLDER_WORDS : List Str :=
  ["number".data, "name".data, "date".data, "address".data, "other".data]

/-- Function `_is_form_label_or_placeholder(value, max_reasonable_len)`
(parser.py lines 74-94). -/
def _is_form_label_or_placeholder (value : Option Str) (bound : Nat) : Bool :=
  match value with
  | none => true
  | some v =>
    if v.isEmpty || (pyStrip v).isEmpty then true
    else
      let s := pyStrip v
      if s == ":".data || s.isEmpty || onlyPunct s then true
      else if s.length > bound && s.contains '\n' && s.count '\n' > 2 then true
      else if labelPatternsMatch s then true
      else if LABEL_SUBSTRINGS.any (fun sub => containsSub sub (pyLower s)) then true
      else if PLACEHOLDER_WORDS.contains (pyLower s) then true
      else if pyUpper s == "OTHER".data || pyUpper s == "Y".data || pyUpper s == "N".data then true
      else false

/-! ## Numeric and date parse helpers (parser.py lines 28-56) -/

/-- Numeric value of a digit string. -/
def digitsToNat (s : Str) : Nat :=
  s.foldl (fun acc c => acc * 10 + (c.toNat - '0'.toNat)) 0

/-- Value of `float(s)` for a string of digits and at most one period. -/
def ratOfClean (s : Str) : ℚ :=
  let intPart := s.takeWhile (fun c => c != '.')
  let rest := s.drop (intPart.length + 1)
  (digitsToNat intPart : ℚ) + (digitsToNat rest : ℚ) / (10 : ℚ) ^ rest.length

/-- Parse condition of `float(cleaned)` where `cleaned` holds only digits and
periods: at most one period and at least one digit. -/
def floatLiteralOk (s : Str) : Bool :=
  s.count '.' ≤ 1 && s.any Char.isDigit

/-- Function `_parse_float` (parser.py lines 40-49): everything that is not a
digit or period is stripped, then `float()` is attempted, failures giving
`None`. -/
def _parse_float (s : Option Str) : Option ℚ :=
  match s with
  | none => none
  | some v =>
    let cleaned := v.filter (fun c => c.isDigit || c == '.')
    if cleaned.isEmpty then none
    else if floatLiteralOk cleaned then some (ratOfClean cleaned) else none

/-- Leap-year rule of `datetime.date`. -/
def isLeap (y : Nat) : Bool := y % 4 == 0 && (y % 100 != 0 || y % 400 == 0)

/-- Days in a month of `datetime.date`. -/
def daysInMonth (y m : Nat) : Nat :=
  if m == 2 then (if isLeap y then 29 else 28)
  else if m == 4 || m == 6 || m == 9 || m == 11 then 30
  else 31

/-- Validity test applied by the `datetime.date` constructor. -/
def validDate (y m d : Nat) : Bool :=
  1 ≤ y && y ≤ 9999 && 1 ≤ m && m ≤ 12 && 1 ≤ d && d ≤ daysInMonth y m

/-- Parse of the `strptime` directive `%m`, regex `(1[0-2]|0[1-9]|[1-9])`,
alternatives tried left to right. -/
def parseMonthTok (s : Str) : Option (Nat × Str) :=
  match s with
  | '1' :: c :: rest =>
    if '0' ≤ c && c ≤ '2' then some (10 + (c.toNat - '0'.toNat), rest)
    else some (1, c :: rest)
  | '0' :: c :: rest =>
    if '1' ≤ c && c ≤ '9' then some (c.toNat - '0'.toNat, rest) else none
  | c :: rest =>
    if '1' ≤ c && c ≤ '9' then some (c.toNat - '0'.toNat, rest) else none
  | [] => none

/-- Parse of the `strptime` directive `%d`, regex `(3[01]|[12]\d|0[1-9]|[1-9])`. -/
def parseDayTok (s : Str) : Option (Nat × Str) :=
  match s with
  | '3' :: c :: rest =>
    if c == '0' || c == '1' then some (30 + (c.toNat - '0'.toNat), rest)
    else some (3, c :: rest)
  | '1' :: c :: rest =>
    if c.isDigit then some (10 + (c.toNat - '0'.toNat), rest) else some (1, c :: rest)
  | '2' :: c :: rest =>
    if c.isDigit then some (20 + (c.toNat - '0'.toNat), rest) else some (2, c :: rest)
  | '0' :: c :: rest =>
    if '1' ≤ c && c ≤ '9' then some (c.toNat - '0'.toNat, rest) else none
  | c :: rest =>
    if '1' ≤ c && c ≤ '9' then some (c.toNat - '0'.toNat, rest) else none
  | [] => none

/-- Parse of the `strptime` directive `%Y`, regex `(\d\d\d\d)`. -/
def parseYearTok (s : Str) : Option (Nat × Str) :=
  match s with
  | a :: b :: c :: d :: rest =>
    if a.isDigit && b.isDigit && c.isDigit && d.isDigit then
      some (digitsToNat [a, b, c, d], rest)
    else none
  | _ => none

/-- Literal separator inside a `strptime` format. -/
def parseSep (c : Char) (s : Str) : Option Str :=
  match s with
  | d :: rest => if d == c then some rest else none
  | _ => none

/-- One `strptime` attempt for a numeric format: the three tokens in the given
order with the given separator, consuming the whole string, then the
`datetime.date` validity check.  `fields` tells which token (year, month, day)
comes at which place. -/
def strptimeMDY (s : Str) : Option PyDate := do
  let (m, s1) ← parseMonthTok s
  let s2 ← parseSep '/' s1
  let (d, s3) ← parseDayTok s2
  let s4 ← parseSep '/' s3
  let (y, s5) ← parseYearTok s4
  if s5.isEmpty && validDate y m d then pure ⟨y, m, d⟩ else none

def strptimeYMD (s : Str) : Option PyDate := do
  let (y, s1) ← parseYearTok s
  let s2 ← parseSep '-' s1
  let (m, s3) ← parseMonthTok s2
  let s4 ← parseSep '-' s3
  let (d, s5) ← parseDayTok s4
  if s5.isEmpty && validDate y m d then pure ⟨y, m, d⟩ else none

def strptimeDMY (s : Str) : Option PyDate := do
  let (d, s1) ← parseDayTok s
  let s2 ← parseSep '/' s1
  let (m, s3) ← parseMonthTok s2
  let s4 ← parseSep '/' s3
  let (y, s5) ← parseYearTok s4
  if s5.isEmpty && validDate y m d then pure ⟨y, m, d⟩ else none

def strptimeMDYdash (s : Str) : Option PyDate := do
  let (m, s1) ← parseMonthTok s
  let s2 ← parseSep '-' s1
  let (d, s3) ← parseDayTok s2
  let s4 ← parseSep '-' s3
  let (y, s5) ← parseYearTok s4
  if s5.isEmpty && validDate y m d then pure ⟨y, m, d⟩ else none

/-- Format list of `_parse_date` (parser.py line 32), in order:
`"%m/%d/%Y", "%Y-%m-%d", "%d/%m/%Y", "%m-%d-%Y"`. -/
def DATE_FORMATS : List (Str → Option PyDate) :=
  [strptimeMDY, strptimeYMD, strptimeDMY, strptimeMDYdash]

/-- Function `_parse_date` (parser.py lines 28-37): strip, truncate to 10
characters, try the four formats in order, `None` when no format succeeds. -/
def _parse_date (s : Option Str) : Option PyDate :=
  match s with
  | none => none
  | some v =>
    if v.isEmpty || (pyStrip v).isEmpty then none
    else
      let t := (pyStrip v).take 10
      DATE_FORMATS.findSome? (fun f => f t)

/-- Scan of `re.search(r"\b(19|20)\d{2}\b", s)`: leftmost position with a
word boundary, a `19`/`20` prefix, two more digits, and a closing boundary. -/
def parseYearScan (prev : Option Char) : Str → Option Nat
  | [] => none
  | s@(c :: rest) =>
    let boundary : Bool := match prev with
      | none => true
      | some p => !isWordChar p
    if boundary &&
       (ciStartsWith "19".data s || ciStartsWith "20".data s) &&
       (match s with
        | _ :: b :: c2 :: d :: tail =>
          b.isDigit && c2.isDigit && d.isDigit &&
          (match tail with | [] => true | e :: _ => !isWordChar e)
        | _ => false) then
      some (digitsToNat (s.take 4))
    else parseYearScan (some c) rest

/-- Function `_parse_year` (parser.py lines 52-56). -/
def _parse_year (s : Option Str) : Option Int :=
  match s with
  | none => none
  | some v =>
    if v.isEmpty then none
    else match parseYearScan none v with
      | some n => some (n : Int)
      | none => none

/-! ## Field patterns (parser.py `_extract_from_raw_text`, lines 97-280) -/

/-- Class `[A-Za-z0-9\-]` of the policy-number captures. -/
def isPolicyChar (c : Char) : Bool := c.isAlpha || c.isDigit || c == '-'

/-- Class `\S` (also `[^\s\n]`). -/
def isNonWs (c : Char) : Bool := !isPySpace c

/-- Class `[A-HJ-NPR-Z0-9]` under `re.IGNORECASE`: a digit, or a letter other
than I, O, Q in either case. -/
def isVinChar (c : Char) : Bool :=
  let u := c.toUpper
  c.isDigit || (('A' ≤ u && u ≤ 'H') || ('J' ≤ u && u ≤ 'N') || u == 'P' || ('R' ≤ u && u ≤ 'Z'))

/-- Pattern `POLICY\s*NUMBER[:\s]*([A-Za-z0-9\-]+)` (parser.py line 114). -/
def pnFormCap (text : Str) : Option Str :=
  searchCap (seqL [litCIM "POLICY".data, wsStar, litCIM "NUMBER".data, colonWsStar])
    (classPlusM isPolicyChar) epsM text

/-- Pattern `NAIC\s*CODE[:\s]*\S+\s*CARRIER[:\s]*\S+\s*POLICY\s*NUMBER[:\s]*([^\s\n]+)`
(parser.py line 115). -/
def pnNaicCap (text : Str) : Option Str :=
  searchCap
    (seqL [litCIM "NAIC".data, wsStar, litCIM "CODE".data, colonWsStar,
           classPlusM isNonWs, wsStar, litCIM "CARRIER".data, colonWsStar,
           classPlusM isNonWs, wsStar, litCIM "POLICY".data, wsStar,
           litCIM "NUMBER".data, colonWsStar])
    (classPlusM isNonWs) epsM text

/-- Pattern `(?:policy\s*#?|policy\s*number)\s*[:\s]*([A-Za-z0-9\-]+)` applied
to the lower-cased text (parser.py line 124). -/
def pnGenericCap (lowerText : Str) : Option Str :=
  searchCap
    (seqL [altM (seqL [litM "policy".data, wsStar, optM (litM "#".data)])
                (seqL [litM "policy".data, wsStar, litM "number".data]),
           wsStar, colonWsStar])
    (classPlusM isPolicyChar) epsM lowerText

/-- Pattern `NAME\s+OF\s+INSURED\s*\([^)]*\)\s*([^\n]+)` (parser.py line 131). -/
def nameFormCap (text : Str) : Option Str :=
  searchCap
    (seqL [wordsCI ["NAME".data, "OF".data, "INSURED".data], wsStar,
           litM "(".data, classStarM (fun c => c != ')'), litM ")".data, wsStar])
    linePlus epsM text

/-- Pattern `(?:insured|policyholder)\s*(?:name)?\s*[:\s]*([^\n]+)` on the
lower-cased text (parser.py line 137). -/
def nameGenericCap (lowerText : Str) : Option Str :=
  searchCap
    (seqL [altM (litM "insured".data) (litM "policyholder".data), wsStar,
           optM (litM "name".data), wsStar, colonWsStar])
    linePlus epsM lowerText

/-- Pattern `DATE\s+OF\s+LOSS\s+AND\s+TIME\s*([^\n]+)` (parser.py line 144). -/
def dateTimeLineCap (text : Str) : Option Str :=
  searchCap
    (seqL [wordsCI ["DATE".data, "OF".data, "LOSS".data, "AND".data, "TIME".data], wsStar])
    linePlus epsM text

/-- Pattern `(\d{1,2}/\d{1,2}/\d{2,4})` searched inside the loss line
(parser.py line 147). -/
def dateTokenCap (part : Str) : Option Str :=
  searchCap epsM
    (seqL [classRepM Char.isDigit 1 2, litM "/".data, classRepM Char.isDigit 1 2,
           litM "/".data, classRepM Char.isDigit 2 4])
    epsM part

/-- Pattern `(\d{1,2}\s*:\s*\d{2}\s*(?:AM|PM)?|\d{1,2}\s*AM|\d{1,2}\s*PM)`
with IGNORECASE, searched inside the loss line (parser.py line 150). -/
def timeTokenCap (part : Str) : Option Str :=
  searchCap epsM
    (altM
      (seqL [classRepM Char.isDigit 1 2, wsStar, litM ":".data, wsStar,
             classExactM Char.isDigit 2, wsStar,
             optM (altM (litCIM "AM".data) (litCIM "PM".data))])
      (altM (seqL [classRepM Char.isDigit 1 2, wsStar, litCIM "AM".data])
            (seqL [classRepM Char.isDigit 1 2, wsStar, litCIM "PM".data])))
    epsM part

/-- Pattern
`(?:loss\s+date|date\s+of\s+loss|incident\s+date)\s*[:\s]*(\d{1,2}[/\-]\d{1,2}[/\-]\d{2,4})`
on the lower-cased text (parser.py line 155). -/
def dateGenericCap (lowerText : Str) : Option Str :=
  searchCap
    (seqL [altM (seqL [litM "loss".data, wsPlus, litM "date".data])
                (altM (seqL [litM "date".data, wsPlus, litM "of".data, wsPlus, litM "loss".data])
                      (seqL [litM "incident".data, wsPlus, litM "date".data])),
           wsStar, colonWsStar])
    (seqL [classRepM Char.isDigit 1 2, altM (litM "/".data) (litM "-".data),
           classRepM Char.isDigit 1 2, altM (litM "/".data) (litM "-".data),
           classRepM Char.isDigit 2 4])
    epsM lowerText

/-- Pattern `LOCATION\s+OF\s+LOSS\s*(?:STREET[:\s]*)?([^\n]+?)(?:\s*CITY|$)`
(parser.py line 160). -/
def streetCap (text : Str) : Option Str :=
  searchCap
    (seqL [wordsCI ["LOCATION".data, "OF".data, "LOSS".data], wsStar,
           optM (seqM (litCIM "STREET".data) colonWsStar)])
    (classLazyPlusM (fun c => c != '\n'))
    (altM (seqM wsStar (litCIM "CITY".data)) dollarM) text

/-- Pattern `CITY,?\s*STATE,?\s*ZIP[:\s]*([^\n]+)` (parser.py line 165). -/
def cszCap (text : Str) : Option Str :=
  searchCap
    (seqL [litCIM "CITY".data, optM (litM ",".data), wsStar, litCIM "STATE".data,
           optM (litM ",".data), wsStar, litCIM "ZIP".data, colonWsStar])
    linePlus epsM text

/-- Pattern `COUNTRY[:\s]*([^\n]+)` (parser.py line 170). -/
def countryCap (text : Str) : Option Str :=
  searchCap (seqL [litCIM "COUNTRY".data, colonWsStar]) linePlus epsM text

/-- Continuation lines `(?:\n(?!POLICY|INSURED|LOCATION|DATE)[^\n]+)*` of the
form description (parser.py line 177), greedy.  Candidates that stop a line
midway are omitted: nothing follows the capturing group, so the first
(maximal) candidate always wins. -/
def descContLines (s : Str) : List Str :=
  match s with
  | '\n' :: rest =>
    if ciStartsWith "POLICY".data rest || ciStartsWith "INSURED".data rest ||
       ciStartsWith "LOCATION".data rest || ciStartsWith "DATE".data rest then [s]
    else
      let line := rest.takeWhile (fun c => c != '\n')
      if line.isEmpty then [s]
      else descContLines (rest.drop line.length) ++ [s]
  | _ => [s]
termination_by s.length
decreasing_by simp [List.length_drop]; omega

/-- Pattern `DESCRIPTION\s+OF\s+ACCIDENT\s*([^\n]+(?:\n(?!POLICY|INSURED|LOCATION|DATE)[^\n]+)*)`
(parser.py line 177). -/
def descFormCap (text : Str) : Option Str :=
  searchCap
    (seqL [wordsCI ["DESCRIPTION".data, "OF".data, "ACCIDENT".data], wsStar])
    (seqM linePlus descContLines) epsM text

/-- Lazy continuation lines `(?:\n[^\n]+)*?` (parser.py line 183): fewest
iterations first; an iteration always consumes a full line (a shorter
consumption would leave the next character a non-newline, and each
iteration starts with `\n`). -/
def lazyLinesStar (s : Str) : List Str :=
  match s with
  | '\n' :: rest =>
    let line := rest.takeWhile (fun c => c != '\n')
    if line.isEmpty then [s]
    else s :: lazyLinesStar (rest.drop line.length)
  | _ => [s]
termination_by s.length
decreasing_by simp [List.length_drop]; omega

/-- Greedy continuation lines `(?:\n[^\n]+)*` (parser.py line 189). -/
def greedyLinesStar (s : Str) : List Str :=
  match s with
  | '\n' :: rest =>
    let line := rest.takeWhile (fun c => c != '\n')
    if line.isEmpty then [s]
    else greedyLinesStar (rest.drop line.length) ++ [s]
  | _ => [s]
termination_by s.length
decreasing_by simp [List.length_drop]; omega

/-- Lookahead `(?=\n[A-Z\s]{3,}:|\n\n|$)` of the generic description pattern
(parser.py line 183); applied to the lower-cased text, where `[A-Z]` matches
no letter. -/
def descLookahead : Str → List Str :=
  lookM (altM (seqL [litM "\n".data,
                     classAtLeastM (fun c => ('A' ≤ c && c ≤ 'Z') || isPySpace c) 3,
                     litM ":".data])
              (altM (litM "\n\n".data) dollarM))

/-- Pattern
`(?:description\s+of\s+(?:loss|accident)|accident\s+description)\s*[:\s]*([^\n]+(?:\n[^\n]+)*?)(?=\n[A-Z\s]{3,}:|\n\n|$)`
on the lower-cased text (parser.py line 183). -/
def descGenericCap (lowerText : Str) : Option Str :=
  searchCap
    (seqL [altM (seqL [litM "description".data, wsPlus, litM "of".data, wsPlus,
                       altM (litM "loss".data) (litM "accident".data)])
                (seqL [litM "accident".data, wsPlus, litM "description".data]),
           wsStar, colonWsStar])
    (seqM linePlus lazyLinesStar) descLookahead lowerText

/-- Pattern `Description(?:\s+of\s+(?:loss|accident))?\s*[:\s]*([^\n]+(?:\n[^\n]+)*)`
(parser.py line 189). -/
def descFinalCap (text : Str) : Option Str :=
  searchCap
    (seqL [litCIM "Description".data,
           optM (seqL [wsPlus, litCIM "of".data, wsPlus,
                       altM (litCIM "loss".data) (litCIM "accident".data)]),
           wsStar, colonWsStar])
    (seqM linePlus greedyLinesStar) epsM text

/-- Pattern `Location(?:\s+of\s+loss)?\s*[:\s]*([^\n]+)` (parser.py line 197). -/
def locationFallbackCap (text : Str) : Option Str :=
  searchCap
    (seqL [litCIM "Location".data,
           optM (seqL [wsPlus, litCIM "of".data, wsPlus, litCIM "loss".data]),
           wsStar, colonWsStar])
    linePlus epsM text

/-- Pattern `DRIVER'S\s+NAME\s+AND\s+ADDRESS\s*([^\n]+)` (parser.py line 204). -/
def driverCap (text : Str) : Option Str :=
  searchCap
    (seqL [wordsCI ["DRIVER'S".data, "NAME".data, "AND".data, "ADDRESS".data], wsStar])
    linePlus epsM text

/-- Pattern `OWNER'S\s+NAME\s+AND\s+ADDRESS\s*([^\n]+)` (parser.py line 210). -/
def ownerCap (text : Str) : Option Str :=
  searchCap
    (seqL [wordsCI ["OWNER'S".data, "NAME".data, "AND".data, "ADDRESS".data], wsStar])
    linePlus epsM text

/-- Pattern `PRIMARY\s+PHONE\s*#\s*[:\s]*([^\n]+)` (parser.py line 219). -/
def phoneCap (text : Str) : Option Str :=
  searchCap
    (seqL [litCIM "PRIMARY".data, wsPlus, litCIM "PHONE".data, wsStar,
           litM "#".data, wsStar, colonWsStar])
    linePlus epsM text

/-- Class `[^\s\n@]` of the e-mail local part. -/
def isEmailLocalChar (c : Char) : Bool := !isPySpace c && c != '@'

/-- Pattern `PRIMARY\s+E-MAIL\s*[:\s]*([^\s\n@]+@[^\s\n]+)` (parser.py line 224). -/
def emailCap (text : Str) : Option Str :=
  searchCap
    (seqL [litCIM "PRIMARY".data, wsPlus, litCIM "E-MAIL".data, wsStar, colonWsStar])
    (seqL [classPlusM isEmailLocalChar, litM "@".data, classPlusM isNonWs])
    epsM text

/-- Pattern `V\.?I\.?N\.?[:\s]*([A-HJ-NPR-Z0-9]{17})` (parser.py line 229). -/
def vinCap (text : Str) : Option Str :=
  searchCap
    (seqL [litCIM "V".data, optM (litM ".".data), litCIM "I".data,
           optM (litM ".".data), litCIM "N".data, optM (litM ".".data), colonWsStar])
    (classExactM isVinChar 17) epsM text

/-- Class `[^\n\t]` of the make/model captures. -/
def isMakeChar (c : Char) : Bool := c != '\n' && c != '\t'

/-- Pattern `MAKE[:\s]*([^\n\t]+?)(?:\s+YEAR|\s+MODEL|$)` (parser.py line 230). -/
def makeCap (text : Str) : Option Str :=
  searchCap (seqL [litCIM "MAKE".data, colonWsStar]) (classLazyPlusM isMakeChar)
    (altM (seqM wsPlus (litCIM "YEAR".data))
          (altM (seqM wsPlus (litCIM "MODEL".data)) dollarM)) text

/-- Pattern `MODEL[:\s]*([^\n\t]+?)(?:\s+BODY|\s+TYPE|$)` (parser.py line 231). -/
def modelCap (text : Str) : Option Str :=
  searchCap (seqL [litCIM "MODEL".data, colonWsStar]) (classLazyPlusM isMakeChar)
    (altM (seqM wsPlus (litCIM "BODY".data))
          (altM (seqM wsPlus (litCIM "TYPE".data)) dollarM)) text

/-- Pattern `YEAR[:\s]*(\d{4})` (parser.py line 232). -/
def yearCap (text : Str) : Option Str :=
  searchCap (seqL [litCIM "YEAR".data, colonWsStar]) (classExactM Char.isDigit 4) epsM text

/-- Pattern `ESTIMATE\s+AMOUNT[:\s]*([^\n]+)` (parser.py line 233). -/
def estAmountCap (text : Str) : Option Str :=
  searchCap (seqL [litCIM "ESTIMATE".data, wsPlus, litCIM "AMOUNT".data, colonWsStar])
    linePlus epsM text

/-- Pattern `(?:Estimate|initial\s+estimate)\s*[:\s]*([^\n]+)` (parser.py line 235). -/
def estGenericCap (text : Str) : Option Str :=
  searchCap
    (seqL [altM (litCIM "Estimate".data)
                (seqL [litCIM "initial".data, wsPlus, litCIM "estimate".data]),
           wsStar, colonWsStar])
    linePlus epsM text

/-! ## Extractor assembly (parser.py lines 97-291) -/

/-- Store idiom `val = m.group(1).strip(); if not _is_form_label_or_placeholder(val, bound): field = val`. -/
def acceptCap (bound : Nat) (cap : Option Str) : Option Str :=
  match cap with
  | none => none
  | some c =>
    let val := pyStrip c
    if _is_form_label_or_placeholder (some val) bound then none else some val

/-- Store idiom with truncation `val = m.group(1).strip()[:trunc]`. -/
def acceptCapTrunc (bound trunc : Nat) (cap : Option Str) : Option Str :=
  match cap with
  | none => none
  | some c =>
    let val := (pyStrip c).take trunc
    if _is_form_label_or_placeholder (some val) bound then none else some val

/-- Result of the policy-number pattern loop (parser.py lines 113-121): both
form patterns run unconditionally in order, each accepted value overwriting
the previous one. -/
def policyLoopResult (text : Str) : Option Str :=
  match acceptCap 50 (pnNaicCap text) with
  | some v => some v
  | none => acceptCap 50 (pnFormCap text)

/-- Policy-number cascade (parser.py lines 113-128): the generic pattern runs
only when the loop left no truthy value. -/
def extractPolicyNumber (text : Str) : Option Str :=
  let after2 : Option Str := policyLoopResult text
  if optStrTruthy after2 then after2
  else
    match acceptCap 50 (pnGenericCap (pyLower text)) with
    | some v => some v
    | none => after2

/-- Policyholder-name cascade (parser.py lines 131-141). -/
def extractPolicyholderName (text : Str) : Option Str :=
  let v1 := acceptCapTrunc 200 200 (nameFormCap text)
  if optStrTruthy v1 then v1
  else
    match acceptCapTrunc 200 200 (nameGenericCap (pyLower text)) with
    | some v => some v
    | none => v1

/-- Date from the combined loss line (parser.py lines 144-149). -/
def lossLineDate (text : Str) : Option PyDate :=
  match dateTimeLineCap text with
  | none => none
  | some part =>
    match dateTokenCap part with
    | none => none
    | some dtok => _parse_date (some dtok)

/-- Incident-date cascade (parser.py lines 144-157). -/
def extractIncidentDate (text : Str) : Option PyDate :=
  let d1 := lossLineDate text
  if d1.isSome then d1
  else
    match dateGenericCap (pyLower text) with
    | none => d1
    | some tok => _parse_date (some tok)

/-- Incident time, stored stripped with no classifier check
(parser.py lines 150-152). -/
def extractIncidentTime (text : Str) : Option Str :=
  match dateTimeLineCap text with
  | none => none
  | some part =>
    match timeTokenCap part with
    | none => none
    | some t => some (pyStrip t)

/-- City/state/zip capture (parser.py lines 165-169). -/
def extractLocationCSZ (text : Str) : Option Str := acceptCap 100 (cszCap text)

/-- Street capture with its generic fallback, which runs only when neither the
street nor the city/state/zip capture stored a value (parser.py lines 160-164
and 196-201). -/
def extractLocationStreet (text : Str) : Option Str :=
  let street := acceptCapTrunc 200 300 (streetCap text)
  let csz := extractLocationCSZ text
  if optStrTruthy street || optStrTruthy csz then street
  else
    match acceptCapTrunc 200 300 (locationFallbackCap text) with
    | some v => some v
    | none => street

/-- Country capture (parser.py lines 170-174). -/
def extractLocationCountry (text : Str) : Option Str := acceptCap 80 (countryCap text)

/-- Fallback idiom `if not field: ... if accepted: field = val` of the
cascades: keep a truthy current value, otherwise store the accepted new value
if any. -/
def tryFallback (cur new : Option Str) : Option Str :=
  if optStrTruthy cur then cur
  else
    match new with
    | some v => some v
    | none => cur

/-- Description cascade (parser.py lines 177-193); each branch strips,
truncates to 2000 characters and filters with bound 2000. -/
def extractDescription (text : Str) : Option Str :=
  let d1 := acceptCapTrunc 2000 2000 (descFormCap text)
  let d2 := tryFallback d1 (acceptCapTrunc 2000 2000 (descGenericCap (pyLower text)))
  tryFallback d2 (acceptCapTrunc 2000 2000 (descFinalCap text))

/-- Claimant identity cascade (parser.py lines 204-216): driver capture, else
owner capture, else the policyholder name when present. -/
def extractClaimantBase (text : Str) (pname : Option Str) : Option InvolvedParty :=
  let c1 : Option InvolvedParty :=
    match acceptCap 200 (driverCap text) with
    | some v => some { name := some v }
    | none => none
  let c2 : Option InvolvedParty :=
    match c1 with
    | some c => some c
    | none =>
      match acceptCap 200 (ownerCap text) with
      | some v => some { name := some v }
      | none => none
  match c2 with
  | some c => some c
  | none => if optStrTruthy pname then some { name := pname } else none

/-- Claimant with phone (filtered, bound 30, truncated to 50) and e-mail
(stored stripped with no classifier check), both only applied when a claimant
exists (parser.py lines 219-226). -/
def extractClaimant (text : Str) (pname : Option Str) : Option InvolvedParty :=
  match extractClaimantBase text pname with
  | none => none
  | some c =>
    let c1 :=
      match acceptCapTrunc 30 50 (phoneCap text) with
      | some v => { c with phone := some v }
      | none => c
    match emailCap text with
    | some ev => some { c1 with email := some (pyStrip ev) }
    | none => some c1

/-- Make/model store idiom (parser.py lines 237-242): the strip of the capture,
reset to `None` only when non-empty and rejected by the classifier — an empty
strip result is kept as the empty string. -/
def makeModelVal (cap : Option Str) : Option Str :=
  match cap with
  | none => none
  | some c =>
    let v := pyStrip c
    if !v.isEmpty && _is_form_label_or_placeholder (some v) 50 then none else some v

/-- Python `int(s)` on a digit string; `none` models the `ValueError` that
`int` raises on anything else (the year capture is always four digits, so the
extractor never hits that case — see the safety theorem). -/
def pyIntOpt (s : Str) : Option Int :=
  if !s.isEmpty && s.all Char.isDigit then some (digitsToNat s : Int) else none

/-- Asset construction (parser.py lines 229-251): created when any of the five
vehicle patterns matched, whether or not their values were accepted. -/
def extractAsset (text : Str) : Option AssetDetails :=
  let vin := vinCap text
  let mk := makeCap text
  let mdl := modelCap text
  let yr := yearCap text
  let est : Option Str :=
    match estAmountCap text with
    | some e => some e
    | none => estGenericCap text
  if vin.isSome || mk.isSome || mdl.isSome || yr.isSome || est.isSome then
    some { asset_type := some "vehicle".data,
           asset_id := vin.map pyStrip,
           make := makeModelVal mk,
           model := makeModelVal mdl,
           year := match yr with
             | some y => pyIntOpt y
             | none => none,
           estimated_damage := _parse_float est,
           initial_estimate := _parse_float est }
  else none

/-- Post-construction sync (parser.py lines 252-254). -/
def syncAsset (a : AssetDetails) : AssetDetails :=
  if a.initial_estimate.isNone && a.estimated_damage.isSome then
    { a with initial_estimate := a.estimated_damage }
  else a

/-- Claim-type inference (parser.py lines 257-264): injury from the extracted
description only; else auto from whole-document cues, the ACORD marker being
tested against the upper-cased document; else property. -/
def inferClaimType (desc : Option Str) (lower full : Str) : Str :=
  let descLower := pyLower (desc.getD [])
  if !descLower.isEmpty &&
     (containsSub "injury".data descLower || containsSub "injured".data descLower) then
    "injury".data
  else if containsSub "vehicle".data lower || containsSub "automobile".data lower ||
          containsSub "auto".data lower || containsSub "ACORD".data full then
    "auto".data
  else
    "property".data

/-- Function `_extract_from_raw_text` (parser.py lines 97-280). -/
def extract_from_raw_text (text : Str) : ExtractedFields :=
  let lower := pyLower text
  let full := pyUpper text
  let pname := extractPolicyholderName text
  let claimant := extractClaimant text pname
  let asset := (extractAsset text).map syncAsset
  let localInitEst : Option ℚ :=
    match asset with
    | some a => pyOrQ a.initial_estimate a.estimated_damage
    | none => none
  let desc := extractDescription text
  { policy := { policy_number := extractPolicyNumber text,
                policyholder_name := pname },
    incident := { date := extractIncidentDate text,
                  time := extractIncidentTime text,
                  location_street := extractLocationStreet text,
                  location_city_state_zip := extractLocationCSZ text,
                  location_country := extractLocationCountry text,
                  description := desc },
    claimant := claimant,
    third_parties := [],
    contact_details := claimant,
    asset := asset,
    claim_type := some (inferClaimType desc lower full),
    attachments :=
      if containsSub "attachment".data lower || containsSub "attached".data lower then
        ["document_attached".data]
      else [],
    initial_estimate :=
      match asset with
      | some a => a.initial_estimate
      | none => localInitEst }

/-- Function `extract_from_text` (parser.py lines 289-291). -/
def extract_from_text (content : String) : ExtractedFields :=
  extract_from_raw_text content.data

/-! ## Specification-side definitions used to state the claims -/

/-- Presence of a mandatory field, as the specification words it (§4.3):
non-blank strings, a parsed date, one of the two location parts, or a present
damage value. -/
def mandatoryPresent (e : ExtractedFields) : String → Bool
  | "policy_number" => strFieldPresent e.policy.policy_number
  | "policyholder_name" => strFieldPresent e.policy.policyholder_name
  | "incident_date" => e.incident.date.isSome
  | "incident_location" => locPresent e.incident
  | "incident_description" => strFieldPresent e.incident.description
  | "claim_type" => strFieldPresent e.claim_type
  | "initial_estimate_or_estimated_damage" => (damageOfCheck e).isSome
  | _ => true

/-- Claim-type priority exactly as the claim words it: the ACORD marker is
sought in the document as originally cased. -/
def claimTypeSpecCased (desc : Option Str) (text : Str) : Str :=
  let d := pyLower (desc.getD [])
  if containsSub "injury".data d || containsSub "injured".data d then "injury".data
  else if containsSub "vehicle".data (pyLower text) ||
          containsSub "automobile".data (pyLower text) ||
          containsSub "auto".data (pyLower text) ||
          containsSub "ACORD".data text then "auto".data
  else "property".data

/-- Claim-type priority with the correction the code forces: the ACORD marker
is sought in the upper-cased document, i.e. case-insensitively. -/
def claimTypeSpecCI (desc : Option Str) (text : Str) : Str :=
  let d := pyLower (desc.getD [])
  if containsSub "injury".data d || containsSub "injured".data d then "injury".data
  else if containsSub "vehicle".data (pyLower text) ||
          containsSub "automobile".data (pyLower text) ||
          containsSub "auto".data (pyLower text) ||
          containsSub "ACORD".data (pyUpper text) then "auto".data
  else "property".data

/-- Structural well-formedness of every extractor output: an enumerated claim
type, no third parties, and contact details aliasing the claimant. -/
def wellFormedRecord (e : ExtractedFields) : Prop :=
  (e.claim_type = some "injury".data ∨ e.claim_type = some "auto".data ∨
   e.claim_type = some "property".data) ∧
  e.third_parties = [] ∧ e.contact_details = e.claimant

/-- Acceptance by the label/placeholder classifier at the default bound. -/
def passesFilter (v : Str) : Prop := _is_form_label_or_placeholder (some v) 200 = false

/-- Counterexample input of the policy-number cascade: both form patterns
match with different accepted values. -/
def naicText : String := "POLICY NUMBER: AAA\nNAIC CODE: 1 CARRIER: X POLICY NUMBER: BBB"

/-- Counterexample string of the length-bound rule: longer than 200 with three
newlines, but its trimmed form is only 201 characters with no newline. -/
def longBlob : Str := List.replicate 201 'x' ++ "\n\n\n".data

/-- Every character a matcher consumes satisfies `Q`. -/
def ConsumedOk (m : Str → List Str) (Q : Char → Prop) : Prop :=
  ∀ s r, r ∈ m s → ∃ u, s = u ++ r ∧ ∀ c ∈ u, Q c

/-- Matchers only ever drop a prefix: the remainder is a suffix. -/
def SuffixOk (m : Str → List Str) : Prop := ∀ s r, r ∈ m s → r <:+ s

/-- Length bound of a matcher's consumption on whitespace-free input. -/
def NwLen (m : Str → List Str) (n : Nat) : Prop :=
  ∀ s r, r ∈ m s → (∀ c ∈ s, isPySpace c = false) → ∃ u, s = u ++ r ∧ u.length ≤ n

/-- Character class of a time-token capture: digits, whitespace, a colon, or
an AM/PM letter in either case. -/
def isTimeChar (c : Char) : Bool :=
  c.isDigit || isPySpace c || c == ':' ||
  c.toLower == 'a' || c.toLower == 'm' || c.toLower == 'p'

/-! ## Theorems -/

/-- C1: `compute_route` evaluates exactly the five rules in strict priority
order with first match winning: a non-empty missing list gives "Manual review"
with reasoning naming every missing field; else an investigation keyword
(whole-word, case-insensitive) gives "Investigation Flag" regardless of the
damage; else an injury claim type (trimmed, case-insensitive) gives
"Specialist Queue"; else a present damage strictly below the threshold gives
"Fast-track"; else "Standard". -/
theorem compute_route_priority (e : ExtractedFields) (missing : List String) (t? : Option ℚ) :
    (missing ≠ [] →
      compute_route e missing t? =
        ("Manual review",
         "Missing mandatory field(s): " ++ String.intercalate ", " missing ++
           ". Cannot auto-route.")) ∧
    (missing = [] → hasInvestigationKeyword e = true →
      (compute_route e missing t?).1 = "Investigation Flag") ∧
    (missing = [] → hasInvestigationKeyword e = false → isInjuryType e = true →
      (compute_route e missing t?).1 = "Specialist Queue") ∧
    (missing = [] → hasInvestigationKeyword e = false → isInjuryType e = false →
      ∀ d, damageOfRoute e = some d → d < t?.getD fast_track_damage_threshold →
        (compute_route e missing t?).1 = "Fast-track") ∧
    (missing = [] → hasInvestigationKeyword e = false → isInjuryType e = false →
      (∀ d, damageOfRoute e = some d → ¬ d < t?.getD fast_track_damage_threshold) →
        (compute_route e missing t?).1 = "Standard") := by
  refine ⟨?_, ?_, ?_, ?_, ?_⟩
  · intro h
    have : missing.isEmpty = false := by
      cases missing with
      | nil => exact absurd rfl h
      | cons a l => rfl
    simp [compute_route, this]
  · intro h hk
    subst h
    simp [compute_route, hk]
  · intro h hk hi
    subst h
    simp [compute_route, hk, hi]
  · intro h hk hi d hd hlt
    subst h
    simp [compute_route, hk, hi, hd, hlt]
  · intro h hk hi hge
    subst h
    cases hd : damageOfRoute e with
    | none => simp [compute_route, hk, hi, hd]
    | some d =>
      have := hge d hd
      simp [compute_route, hk, hi, hd, this]

/-- C1 witness: rule 1 at a concrete record and missing list. -/
theorem compute_route_priority_witness :
    compute_route {} ["policy_number"] none =
      ("Manual review",
       "Missing mandatory field(s): " ++ String.intercalate ", " ["policy_number"] ++
         ". Cannot auto-route.") :=
  (compute_route_priority {} ["policy_number"] none).1 (by decide)

/-- C2: the missing-fields list is exactly the ordered filter of the seven
mandatory field names by absence, and it is empty iff all seven are present. -/
theorem get_missing_mandatory_fields_spec (e : ExtractedFields) :
    get_missing_mandatory_fields e =
      MANDATORY_FIELDS.filter (fun n => !mandatoryPresent e n) ∧
    (get_missing_mandatory_fields e = [] ↔
      ∀ n ∈ MANDATORY_FIELDS, mandatoryPresent e n = true) := by
  have hfil : get_missing_mandatory_fields e =
      MANDATORY_FIELDS.filter (fun n => !mandatoryPresent e n) := by
    simp only [get_missing_mandatory_fields, MANDATORY_FIELDS, List.filter_cons,
      List.filter_nil, mandatoryPresent]
    cases strFieldPresent e.policy.policy_number <;>
      cases strFieldPresent e.policy.policyholder_name <;>
      cases e.incident.date.isSome <;>
      cases locPresent e.incident <;>
      cases strFieldPresent e.incident.description <;>
      cases strFieldPresent e.claim_type <;>
      cases (damageOfCheck e).isSome <;> rfl
  refine ⟨hfil, ?_⟩
  rw [hfil]
  rw [List.filter_eq_nil_iff]
  constructor
  · intro h n hn
    have := h n hn
    simpa using this
  · intro h n hn
    simp [h n hn]

/-- C2 witness: the empty record is missing all seven fields, in order. -/
theorem get_missing_mandatory_fields_spec_witness :
    get_missing_mandatory_fields {} =
      MANDATORY_FIELDS.filter (fun n => !mandatoryPresent {} n) :=
  (get_missing_mandatory_fields_spec {}).1

/-- C3: the damage computed inside `get_missing_mandatory_fields` and the
damage computed inside `compute_route` agree on every record, and both take
the asset's `estimated_damage`, else its `initial_estimate`, with the
top-level `initial_estimate` overriding whenever it is set. -/
theorem damage_computation_agreement :
    (∀ e : ExtractedFields, damageOfCheck e = damageOfRoute e) ∧
    (∀ e : ExtractedFields,
      damageOfCheck e =
        match e.initial_estimate, e.asset with
        | some v, _ => some v
        | none, some a => pyOrQ a.estimated_damage a.initial_estimate
        | none, none => none) := by
  constructor
  · intro e; rfl
  · intro e
    cases h1 : e.initial_estimate <;> cases h2 : e.asset <;>
      simp [damageOfCheck, h1, h2]

/-- Characters of the stripped string are characters of the original. -/
theorem mem_pyStrip {c : Char} {s : Str} (h : c ∈ pyStrip s) : c ∈ s := by
  unfold pyStrip at h
  rw [List.mem_reverse] at h
  have h2 : c ∈ (s.dropWhile isPySpace).reverse :=
    (List.dropWhile_sublist _).mem h
  rw [List.mem_reverse] at h2
  exact (List.dropWhile_sublist _).mem h2

set_option maxRecDepth 10000 in
/-- C5 counterexample: a string longer than the bound with three newlines that
the classifier nevertheless accepts, because its trimmed form is short and
newline-free. -/
theorem classifier_longblob_counterexample :
    200 < longBlob.length ∧ 2 < longBlob.count '\n' ∧
    _is_form_label_or_placeholder (some longBlob) 200 = false := by decide

/-- C5 (amended): the classifier rejects every string in the boilerplate
catalogs — strip-empty strings, punctuation-only strings, strings whose
trimmed form exceeds the bound with more than two newlines, bare placeholder
words, and OTHER/Y/N — and accepts the realistic address value. -/
theorem classifier_catalog_amended :
    (∀ s : Str, (pyStrip s).isEmpty = true →
      _is_form_label_or_placeholder (some s) 200 = true) ∧
    (∀ s : Str, s.all isPunctClass = true →
      _is_form_label_or_placeholder (some s) 200 = true) ∧
    (∀ s : Str, 200 < (pyStrip s).length → 2 < (pyStrip s).count '\n' →
      _is_form_label_or_placeholder (some s) 200 = true) ∧
    (∀ s : Str, pyLower (pyStrip s) ∈ PLACEHOLDER_WORDS →
      _is_form_label_or_placeholder (some s) 200 = true) ∧
    (∀ s : Str, pyUpper (pyStrip s) = "OTHER".data ∨ pyUpper (pyStrip s) = "Y".data ∨
      pyUpper (pyStrip s) = "N".data →
      _is_form_label_or_placeholder (some s) 200 = true) ∧
    _is_form_label_or_placeholder (some "4500 Interstate 35, Austin TX 78745".data) 200 = false := by
  refine ⟨?_, ?_, ?_, ?_, ?_, by set_option maxRecDepth 4000 in decide⟩
  · intro s h
    simp [_is_form_label_or_placeholder, h]
  · intro s h
    by_cases he : (pyStrip s).isEmpty
    · simp [_is_form_label_or_placeholder, he]
    · have hall : (pyStrip s).all isPunctClass = true := by
        rw [List.all_eq_true] at h ⊢
        intro c hc
        exact h c (mem_pyStrip hc)
      have honly : onlyPunct (pyStrip s) = true := by
        simp [onlyPunct, hall, he]
      simp only [_is_form_label_or_placeholder]
      split_ifs with h1 h2 <;> simp_all [honly]
  · intro s hlen hcnt
    have hne : (pyStrip s).isEmpty = false := by
      cases hps : pyStrip s with
      | nil => rw [hps] at hlen; simp at hlen
      | cons a l => rfl
    have hcontains : (pyStrip s).contains '\n' = true := by
      have : '\n' ∈ pyStrip s := by
        have : 0 < (pyStrip s).count '\n' := by omega
        exact List.count_pos_iff.mp this
      simpa [List.contains] using this
    have hmem : '\n' ∈ pyStrip s := List.count_pos_iff.mp (by omega)
    simp only [_is_form_label_or_placeholder]
    split_ifs with h1 h2 h3 <;> try rfl
    exact absurd (by simp [hlen, hcnt, hmem]) h3
  · intro s h
    have hne : (pyStrip s).isEmpty = false := by
      cases hps : pyStrip s with
      | nil =>
        rw [hps] at h
        simp [pyLower, PLACEHOLDER_WORDS] at h
      | cons a l => rfl
    have hcontains : PLACEHOLDER_WORDS.contains (pyLower (pyStrip s)) = true := by
      simpa [List.contains] using h
    simp only [_is_form_label_or_placeholder]
    split_ifs with h1 h2 h3 h4 h5 <;> rfl
  · intro s h
    have hne : (pyStrip s).isEmpty = false := by
      cases hps : pyStrip s with
      | nil =>
        rw [hps] at h
        rcases h with h | h | h <;> simp [pyUpper] at h
      | cons a l => rfl
    simp only [_is_form_label_or_placeholder]
    split_ifs with h1 h2 h3 h4 h5 h6 h7 <;> try rfl
    rcases h with h | h | h <;>
      exact absurd (by simp [h]) h7

/-- C5 amended witness: the strip-empty rule applied to a whitespace-only
string. -/
theorem classifier_catalog_amended_witness :
    _is_form_label_or_placeholder (some "  ".data) 200 = true :=
  classifier_catalog_amended.1 "  ".data (by decide)

set_option maxRecDepth 8000 in
/-- C6 counterexample: on the document "acord" the extractor classifies
"auto" (the marker is matched against the upper-cased document), while the
claim's originally-cased ACORD test yields "property". -/
theorem claim_type_cased_counterexample :
    (extract_from_text "acord").claim_type = some "auto".data ∧
    claimTypeSpecCased (extract_from_text "acord").incident.description "acord".data =
      "property".data := by decide

/-- C6 (amended): the extracted claim type follows the strict three-way
priority — injury from the extracted description, else auto from the
lower-cased document cues or the ACORD marker matched case-insensitively
(against the upper-cased document), else property. -/
theorem claim_type_priority_amended (text : Str) :
    (extract_from_raw_text text).claim_type =
      some (claimTypeSpecCI ((extract_from_raw_text text).incident.description) text) := by
  have h1 : (extract_from_raw_text text).claim_type =
      some (inferClaimType (extractDescription text) (pyLower text) (pyUpper text)) := rfl
  have h2 : (extract_from_raw_text text).incident.description = extractDescription text := rfl
  rw [h1, h2]
  unfold inferClaimType claimTypeSpecCI
  cases hd : pyLower ((extractDescription text).getD []) with
  | nil =>
    simp [hd, show containsSub "injury".data ([] : Str) = false from rfl,
      show containsSub "injured".data ([] : Str) = false from rfl]
  | cons a l => simp [hd]

/-- The inferred claim type is one of the three enumerated values. -/
theorem claimType_cases (text : Str) :
    (extract_from_raw_text text).claim_type = some "injury".data ∨
    (extract_from_raw_text text).claim_type = some "auto".data ∨
    (extract_from_raw_text text).claim_type = some "property".data := by
  have h1 : (extract_from_raw_text text).claim_type =
      some (inferClaimType (extractDescription text) (pyLower text) (pyUpper text)) := rfl
  rw [h1]
  unfold inferClaimType
  dsimp only
  split_ifs with hc1 hc2
  · exact Or.inl rfl
  · exact Or.inr (Or.inl rfl)
  · exact Or.inr (Or.inr rfl)

/-- C10: every extractor output has claim type injury, auto or property —
never absent — and "claim_type" never occurs in its missing-field list. -/
theorem claim_type_total (text : Str) :
    ((extract_from_raw_text text).claim_type = some "injury".data ∨
     (extract_from_raw_text text).claim_type = some "auto".data ∨
     (extract_from_raw_text text).claim_type = some "property".data) ∧
    "claim_type" ∉ get_missing_mandatory_fields (extract_from_raw_text text) := by
  have henum := claimType_cases text
  refine ⟨henum, ?_⟩
  have hp : strFieldPresent (extract_from_raw_text text).claim_type = true := by
    rcases henum with h | h | h <;> rw [h] <;> decide
  simp only [get_missing_mandatory_fields, hp, List.mem_append]
  intro hmem
  rcases hmem with ((((((hmem | hmem) | hmem) | hmem) | hmem) | hmem) | hmem) <;>
    revert hmem <;> split_ifs <;> simp

set_option maxRecDepth 30000 in
/-- C7 counterexample: the form-specific capture yields the accepted value
"AAA", yet the final policy number is "BBB" — the accepted NAIC-combined
capture replaced it. -/
theorem policy_cascade_counterexample :
    acceptCap 50 (pnFormCap naicText.data) = some "AAA".data ∧
    extractPolicyNumber naicText.data = some "BBB".data := by decide

/-- C7 (amended): the generic pattern is tried only when the two form
patterns left no truthy value, but within the form-pattern loop the NAIC
capture, when it matches with an accepted value, overwrites the value of the
form-specific capture instead of being skipped. -/
theorem policy_cascade_amended (text : Str) :
    (acceptCap 50 (pnNaicCap text) = none →
      policyLoopResult text = acceptCap 50 (pnFormCap text)) ∧
    (∀ v, acceptCap 50 (pnNaicCap text) = some v → policyLoopResult text = some v) ∧
    (optStrTruthy (policyLoopResult text) = true →
      extractPolicyNumber text = policyLoopResult text) ∧
    (optStrTruthy (policyLoopResult text) = false →
      extractPolicyNumber text =
        match acceptCap 50 (pnGenericCap (pyLower text)) with
        | some v => some v
        | none => policyLoopResult text) := by
  refine ⟨?_, ?_, ?_, ?_⟩
  · intro h
    simp [policyLoopResult, h]
  · intro v h
    simp [policyLoopResult, h]
  · intro h
    simp [extractPolicyNumber, h]
  · intro h
    simp [extractPolicyNumber, h]

set_option maxRecDepth 8000 in
/-- C7 amended witness: a truthy loop value suppresses the generic pattern. -/
theorem policy_cascade_amended_witness :
    extractPolicyNumber "POLICY NUMBER: X1".data =
      policyLoopResult "POLICY NUMBER: X1".data :=
  (policy_cascade_amended "POLICY NUMBER: X1".data).2.2.1 (by decide)

/-! ## Matching-engine lemmas -/

/-- A successful pattern attempt decomposes into an `a`-remainder, a
`g`-remainder and a satisfied `b`, the capture being the text between the
two remainders. -/
theorem matchPat_spec {a g b : Str → List Str} {t cap : Str}
    (h : matchPat a g b t = some cap) :
    ∃ s1 s2, s1 ∈ a t ∧ s2 ∈ g s1 ∧ (b s2).isEmpty = false ∧
      cap = s1.take (s1.length - s2.length) := by
  unfold matchPat at h
  obtain ⟨s1, hs1, h1⟩ := List.exists_of_findSome?_eq_some h
  obtain ⟨s2, hs2, h2⟩ := List.exists_of_findSome?_eq_some h1
  by_cases hb : (b s2).isEmpty
  · simp [hb] at h2
  · refine ⟨s1, s2, hs1, hs2, by simpa using hb, ?_⟩
    simp [hb] at h2
    exact h2.symm

/-- A successful search is a successful attempt at some suffix of the text. -/
theorem searchCap_spec {a g b : Str → List Str} {cap : Str} :
    ∀ {s : Str}, searchCap a g b s = some cap →
      ∃ t, t <:+ s ∧ matchPat a g b t = some cap
  | [], h => ⟨[], List.suffix_refl [], h⟩
  | c :: rest, h => by
    rw [searchCap] at h
    cases hm : matchPat a g b (c :: rest) with
    | some r =>
      rw [hm] at h
      simp only at h
      exact ⟨c :: rest, List.suffix_refl _, by rw [hm, h]⟩
    | none =>
      rw [hm] at h
      obtain ⟨t, ht, hmt⟩ := searchCap_spec h
      exact ⟨t, ht.trans (List.suffix_cons c rest), hmt⟩

/-- Prefixes of the matched class run satisfy the class. -/
theorem take_all_of_le_takeWhile {p : Char → Bool} {s : Str} {k : Nat}
    (h : k ≤ (s.takeWhile p).length) : (s.take k).all p = true := by
  obtain ⟨rest, hrest⟩ := List.takeWhile_prefix (l := s) p
  rw [List.all_eq_true]
  intro c hc
  have hc2 : c ∈ (s.takeWhile p).take k := by
    rw [← hrest, List.take_append_of_le_length h] at hc
    exact hc
  exact List.mem_takeWhile_imp ((List.take_prefix k _).sublist.mem hc2)

/-- Language of a class consumption of `j` characters. -/
theorem class_drop_lang {p : Char → Bool} {s r : Str} {j : Nat}
    (hj : j ≤ (s.takeWhile p).length) (hr : r = s.drop j) :
    ∃ u, s = u ++ r ∧ u.all p = true ∧ u.length = j := by
  refine ⟨s.take j, by rw [hr, List.take_append_drop], take_all_of_le_takeWhile hj, ?_⟩
  have : (s.takeWhile p).length ≤ s.length := (List.takeWhile_prefix p).length_le
  rw [List.length_take]
  omega

theorem epsM_lang {s r : Str} (h : r ∈ epsM s) : r = s := by
  simpa [epsM] using h

theorem litM_lang {w s r : Str} (h : r ∈ litM w s) : s = w ++ r := by
  unfold litM at h
  by_cases hp : w.isPrefixOf s
  · simp [hp] at h
    subst h
    obtain ⟨t, ht⟩ := List.isPrefixOf_iff_prefix.mp hp
    rw [← ht, List.drop_left]
  · simp [hp] at h

theorem ciStartsWith_length {w s : Str} (h : ciStartsWith w s = true) :
    w.length ≤ s.length := by
  induction w generalizing s with
  | nil => simp
  | cons c w ih =>
    cases s with
    | nil => simp [ciStartsWith] at h
    | cons d t =>
      simp only [ciStartsWith, Bool.and_eq_true] at h
      simpa using ih h.2

/-- The CI-matched segment pairs each character with a pattern character of
equal lower case. -/
theorem ciStartsWith_chars {w s : Str} (h : ciStartsWith w s = true) :
    ∀ c ∈ s.take w.length, ∃ d ∈ w, c.toLower = d.toLower := by
  induction w generalizing s with
  | nil => simp
  | cons d w ih =>
    cases s with
    | nil => simp [ciStartsWith] at h
    | cons c t =>
      simp only [ciStartsWith, Bool.and_eq_true, beq_iff_eq] at h
      intro x hx
      simp only [List.length_cons, List.take_succ_cons, List.mem_cons] at hx
      rcases hx with hx | hx
      · exact ⟨d, List.mem_cons_self d w, by rw [hx, h.1]⟩
      · obtain ⟨y, hy, hxy⟩ := ih h.2 x hx
        exact ⟨y, List.mem_cons_of_mem d hy, hxy⟩

theorem litCIM_lang {w s r : Str} (h : r ∈ litCIM w s) :
    ∃ u, s = u ++ r ∧ u.length = w.length ∧
      (∀ c ∈ u, ∃ d ∈ w, c.toLower = d.toLower) := by
  unfold litCIM at h
  by_cases hp : ciStartsWith w s
  · simp [hp] at h
    subst h
    refine ⟨s.take w.length, (List.take_append_drop _ _).symm, ?_, ciStartsWith_chars hp⟩
    have := ciStartsWith_length hp
    rw [List.length_take]
    omega
  · simp [hp] at h

theorem classStarM_lang {p : Char → Bool} {s r : Str} (h : r ∈ classStarM p s) :
    ∃ u, s = u ++ r ∧ u.all p = true := by
  unfold classStarM at h
  simp only [List.mem_map, List.mem_range] at h
  obtain ⟨k, hk, hr⟩ := h
  obtain ⟨u, h1, h2, _⟩ := class_drop_lang (p := p) (j := (s.takeWhile p).length - k)
    (by omega) hr.symm
  exact ⟨u, h1, h2⟩

theorem classPlusM_lang {p : Char → Bool} {s r : Str} (h : r ∈ classPlusM p s) :
    ∃ u, s = u ++ r ∧ u.all p = true ∧ u ≠ [] := by
  unfold classPlusM at h
  simp only [List.mem_map, List.mem_range] at h
  obtain ⟨k, hk, hr⟩ := h
  obtain ⟨u, h1, h2, h3⟩ := class_drop_lang (p := p) (j := (s.takeWhile p).length - k)
    (by omega) hr.symm
  refine ⟨u, h1, h2, ?_⟩
  intro hnil
  rw [hnil] at h3
  simp at h3
  omega

theorem classLazyPlusM_lang {p : Char → Bool} {s r : Str} (h : r ∈ classLazyPlusM p s) :
    ∃ u, s = u ++ r ∧ u.all p = true ∧ u ≠ [] := by
  unfold classLazyPlusM at h
  simp only [List.mem_map, List.mem_range] at h
  obtain ⟨k, hk, hr⟩ := h
  obtain ⟨u, h1, h2, h3⟩ := class_drop_lang (p := p) (j := k + 1) (by omega) hr.symm
  refine ⟨u, h1, h2, ?_⟩
  intro hnil
  rw [hnil] at h3
  simp at h3

theorem classRepM_lang {p : Char → Bool} {lo hi : Nat} {s r : Str}
    (h : r ∈ classRepM p lo hi s) :
    ∃ u, s = u ++ r ∧ u.all p = true ∧ lo ≤ u.length ∧ u.length ≤ hi := by
  unfold classRepM at h
  by_cases hc : min (s.takeWhile p).length hi < lo
  · simp [hc] at h
  · simp only [hc, if_false, List.mem_map, List.mem_range] at h
    obtain ⟨k, hk, hr⟩ := h
    obtain ⟨u, h1, h2, h3⟩ := class_drop_lang (p := p)
      (j := min (s.takeWhile p).length hi - k) (by omega) hr.symm
    exact ⟨u, h1, h2, by omega, by omega⟩

theorem classExactM_lang {p : Char → Bool} {n : Nat} {s r : Str}
    (h : r ∈ classExactM p n s) :
    ∃ u, s = u ++ r ∧ u.all p = true ∧ u.length = n := by
  unfold classExactM at h
  by_cases hc : n ≤ (s.takeWhile p).length
  · simp [hc] at h
    exact class_drop_lang hc h
  · simp [hc] at h

theorem classAtLeastM_lang {p : Char → Bool} {lo : Nat} {s r : Str}
    (h : r ∈ classAtLeastM p lo s) :
    ∃ u, s = u ++ r ∧ u.all p = true ∧ lo ≤ u.length := by
  unfold classAtLeastM at h
  by_cases hc : (s.takeWhile p).length < lo
  · simp [hc] at h
  · simp only [hc, if_false, List.mem_map, List.mem_range] at h
    obtain ⟨k, hk, hr⟩ := h
    obtain ⟨u, h1, h2, h3⟩ := class_drop_lang (p := p)
      (j := (s.takeWhile p).length - k) (by omega) hr.symm
    exact ⟨u, h1, h2, by omega⟩

theorem seqM_lang {m1 m2 : Str → List Str} {s r : Str} (h : r ∈ seqM m1 m2 s) :
    ∃ mid, mid ∈ m1 s ∧ r ∈ m2 mid := by
  unfold seqM at h
  simpa [List.mem_flatMap] using h

theorem altM_lang {m1 m2 : Str → List Str} {s r : Str} (h : r ∈ altM m1 m2 s) :
    r ∈ m1 s ∨ r ∈ m2 s := by
  simpa [altM] using h

theorem optM_lang {m : Str → List Str} {s r : Str} (h : r ∈ optM m s) :
    r ∈ m s ∨ r = s := by
  simpa [optM] using h

theorem dollarM_lang {s r : Str} (h : r ∈ dollarM s) : r = s ∧ dollarOk s = true := by
  unfold dollarM at h
  by_cases hc : dollarOk s <;> simp [hc] at h
  exact ⟨h, hc⟩

/-- The capture equals the consumed segment when the group remainder is known
to cut the group-start remainder. -/
theorem capture_eq_consumed {s1 s2 u cap : Str} (happ : s1 = u ++ s2)
    (hcap : cap = s1.take (s1.length - s2.length)) : cap = u := by
  subst happ
  rw [hcap, List.length_append]
  have : u.length + s2.length - s2.length = u.length := by omega
  rw [this, List.take_left]

/-- C4: the extractor is total — every parse failure is absorbed locally.
The float helper returns the no-value marker exactly when the cleaned string
is empty or not a float literal; the date helper returns it exactly when the
stripped input is empty or all four formats fail on its first ten characters;
the one unguarded numeric conversion (the year capture) always receives four
digits, so `int()` cannot raise; and every output is a well-formed record. -/
theorem extractor_never_raises :
    (∀ s : Str,
      (_parse_float (some s) = none ↔
        ((s.filter (fun c => c.isDigit || c == '.')).isEmpty = true ∨
         floatLiteralOk (s.filter (fun c => c.isDigit || c == '.')) = false))) ∧
    (∀ s : Str,
      (_parse_date (some s) = none ↔
        ((pyStrip s).isEmpty = true ∨
         ∀ f ∈ DATE_FORMATS, f ((pyStrip s).take 10) = none))) ∧
    (∀ text v : Str, yearCap text = some v →
      v.length = 4 ∧ v.all Char.isDigit = true ∧ (pyIntOpt v).isSome = true) ∧
    (∀ text : Str, wellFormedRecord (extract_from_raw_text text)) := by
  refine ⟨?_, ?_, ?_, ?_⟩
  · intro s
    unfold _parse_float
    dsimp only
    by_cases h1 : (s.filter (fun c => c.isDigit || c == '.')).isEmpty
    · simp [h1]
    · by_cases h2 : floatLiteralOk (s.filter (fun c => c.isDigit || c == '.')) <;>
        simp [h1, h2]
  · intro s
    unfold _parse_date
    dsimp only
    by_cases h0 : s.isEmpty
    · have hs : s = [] := by simpa using h0
      subst hs
      simp [pyStrip]
    · by_cases h1 : (pyStrip s).isEmpty
      · simp [h0, h1]
      · simp only [h0, h1, Bool.or_self, Bool.false_eq_true, if_false]
        rw [List.findSome?_eq_none_iff]
        simp [h1]
  · intro text v h
    obtain ⟨t, _, hm⟩ := searchCap_spec h
    obtain ⟨s1, s2, _, hs2, _, hcap⟩ := matchPat_spec hm
    obtain ⟨u, happ, hall, hlen⟩ := classExactM_lang hs2
    have hv : v = u := capture_eq_consumed happ hcap
    rw [hv]
    have hne : u.isEmpty = false := by
      cases u with
      | nil => simp at hlen
      | cons a l => rfl
    exact ⟨hlen, hall, by simp [pyIntOpt, hne, hall]⟩
  · intro text
    exact ⟨claimType_cases text, rfl, rfl⟩

/-- C4 witness: the year capture of a concrete document is four digits and
converts without raising; a non-numeric string float-parses to the no-value
marker. -/
theorem extractor_never_raises_witness :
    ("2021".data.length = 4 ∧ "2021".data.all Char.isDigit = true ∧
      (pyIntOpt "2021".data).isSome = true) ∧
    _parse_float (some "abc".data) = none :=
  ⟨extractor_never_raises.2.2.1 "YEAR: 2021".data "2021".data (by decide),
   (extractor_never_raises.1 "abc".data).mpr (by decide)⟩

/-- A truthy-guarded fallback result comes from one of its two sources. -/
theorem tryFallback_some {cur new : Option Str} {v : Str}
    (h : tryFallback cur new = some v) : cur = some v ∨ new = some v := by
  unfold tryFallback at h
  split_ifs at h with hc
  · exact Or.inl h
  · cases hn : new with
    | some w =>
      rw [hn] at h
      exact Or.inr (by simpa using h)
    | none =>
      rw [hn] at h
      exact Or.inl h

/-- A value accepted by the truncating store idiom is the stripped capture
truncated to `t`. -/
theorem acceptCapTrunc_some {b t : Nat} {c : Option Str} {v : Str}
    (h : acceptCapTrunc b t c = some v) :
    ∃ g, c = some g ∧ v = (pyStrip g).take t ∧
      _is_form_label_or_placeholder (some v) b = false := by
  unfold acceptCapTrunc at h
  cases hc : c with
  | none => rw [hc] at h; simp at h
  | some g =>
    rw [hc] at h
    dsimp only at h
    split_ifs at h with hf
    have hv : v = (pyStrip g).take t := by simpa using h.symm
    exact ⟨g, rfl, hv, by rw [hv]; simpa using hf⟩

/-- A value accepted by the non-truncating store idiom is the stripped
capture and passed the classifier at bound `b`. -/
theorem acceptCap_some {b : Nat} {c : Option Str} {v : Str}
    (h : acceptCap b c = some v) :
    ∃ g, c = some g ∧ v = pyStrip g ∧
      _is_form_label_or_placeholder (some v) b = false := by
  unfold acceptCap at h
  cases hc : c with
  | none => rw [hc] at h; simp at h
  | some g =>
    rw [hc] at h
    dsimp only at h
    split_ifs at h with hf
    have hv : v = pyStrip g := by simpa using h.symm
    exact ⟨g, rfl, hv, by rw [hv]; simpa using hf⟩

/-- The extracted description, when present, came from one of the three
branch captures through the truncating store idiom. -/
theorem extractDescription_source {text d : Str}
    (h : extractDescription text = some d) :
    ∃ c, acceptCapTrunc 2000 2000 c = some d := by
  unfold extractDescription at h
  dsimp only at h
  rcases tryFallback_some h with h2 | h3
  · rcases tryFallback_some h2 with h4 | h5
    · exact ⟨descFormCap text, h4⟩
    · exact ⟨descGenericCap (pyLower text), h5⟩
  · exact ⟨descFinalCap text, h3⟩

/-- C9: the stored incident description never exceeds 2000 characters; a
stripped source description of up to (and exactly) 2000 characters is stored
in full, and one of 2001 characters is stored truncated to exactly its first
2000 characters. -/
theorem description_cap_bound :
    (∀ text d : Str, (extract_from_raw_text text).incident.description = some d →
      d.length ≤ 2000) ∧
    (∀ g v : Str, acceptCapTrunc 2000 2000 (some g) = some v →
      v = (pyStrip g).take 2000 ∧
      ((pyStrip g).length ≤ 2000 → v = pyStrip g) ∧
      ((pyStrip g).length = 2001 → v.length = 2000 ∧ v = (pyStrip g).take 2000)) := by
  constructor
  · intro text d h
    have h' : extractDescription text = some d := h
    obtain ⟨c, hc⟩ := extractDescription_source h'
    obtain ⟨g, _, hv, _⟩ := acceptCapTrunc_some hc
    rw [hv, List.length_take]
    omega
  · intro g v h
    obtain ⟨g', hg', hv, _⟩ := acceptCapTrunc_some h
    have hg : g' = g := by injection hg'.symm
    subst hg
    refine ⟨hv, ?_, ?_⟩
    · intro hle
      rw [hv, List.take_of_length_le hle]
    · intro h2001
      constructor
      · rw [hv, List.length_take]
        omega
      · exact hv

set_option maxRecDepth 2000 in
/-- C9 witness: a short accepted capture is stored in full. -/
theorem description_cap_bound_witness :
    "hello".data = (pyStrip "hello".data).take 2000 ∧
    ((pyStrip "hello".data).length ≤ 2000 → "hello".data = pyStrip "hello".data) ∧
    ((pyStrip "hello".data).length = 2001 →
      "hello".data.length = 2000 ∧ "hello".data = (pyStrip "hello".data).take 2000) :=
  description_cap_bound.2 "hello".data "hello".data (by decide)

/-! ## Character facts -/

theorem char_isDigit_toNat {c : Char} (h : c.isDigit = true) :
    48 ≤ c.toNat ∧ c.toNat ≤ 57 := by
  unfold Char.isDigit at h
  rw [Bool.and_eq_true, decide_eq_true_eq, decide_eq_true_eq] at h
  exact ⟨UInt32.le_toNat_of_le (by norm_num) h.1, UInt32.toNat_le_of_le (by norm_num) h.2⟩

theorem char_toNat_ofNat {n : Nat} (h : n < 55296) : (Char.ofNat n).toNat = n := by
  unfold Char.ofNat
  rw [dif_pos (Or.inl h)]
  rfl

theorem char_toLower_cases (c : Char) :
    c.toLower = c ∨ (65 ≤ c.toNat ∧ c.toNat ≤ 90 ∧ (c.toLower).toNat = c.toNat + 32) := by
  unfold Char.toLower
  by_cases h : c.toNat ≥ 65 ∧ c.toNat ≤ 90
  · right
    rw [if_pos h]
    exact ⟨h.1, h.2, char_toNat_ofNat (by omega)⟩
  · left
    rw [if_neg h]

theorem char_toUpper_cases (c : Char) :
    c.toUpper = c ∨ (97 ≤ c.toNat ∧ c.toNat ≤ 122 ∧ (c.toUpper).toNat = c.toNat - 32) := by
  unfold Char.toUpper
  by_cases h : c.toNat ≥ 97 ∧ c.toNat ≤ 122
  · right
    rw [if_pos h]
    exact ⟨h.1, h.2, char_toNat_ofNat (by omega)⟩
  · left
    rw [if_neg h]

theorem digit_toLower {c : Char} (h : c.isDigit = true) : c.toLower = c := by
  rcases char_toLower_cases c with hc | ⟨h1, _, _⟩
  · exact hc
  · have := char_isDigit_toNat h
    omega

theorem digit_toUpper {c : Char} (h : c.isDigit = true) : c.toUpper = c := by
  rcases char_toUpper_cases c with hc | ⟨h1, _, _⟩
  · exact hc
  · have := char_isDigit_toNat h
    omega

theorem isPySpace_cases {c : Char} (h : isPySpace c = true) :
    c = ' ' ∨ c = '\t' ∨ c = '\n' ∨ c = '\r' ∨ c = '\x0b' ∨ c = '\x0c' := by
  have h' := h
  simp only [isPySpace, Bool.or_eq_true, decide_eq_true_eq] at h'
  tauto

/-- Only the space character lowers to a space. -/
theorem toLower_eq_space {c : Char} (h : c.toLower = ' ') : c = ' ' := by
  rcases char_toLower_cases c with hc | ⟨h1, _, h3⟩
  · rw [← hc, h]
  · rw [h] at h3
    simp at h3
    omega

/-- A digit head contradicts a letter-lowering head. -/
theorem digit_head_not_letter {c : Char} (hd : c.isDigit = true)
    (h1 : 97 ≤ c.toLower.toNat) : False := by
  rw [digit_toLower hd] at h1
  have := char_isDigit_toNat hd
  omega

/-! ## Strip and substring facts -/

theorem pyStrip_of_no_ws {v : Str} (h : ∀ c ∈ v, isPySpace c = false) :
    pyStrip v = v := by
  unfold pyStrip
  have hd : ∀ (l : Str), (∀ c ∈ l, isPySpace c = false) → l.dropWhile isPySpace = l := by
    intro l hl
    cases l with
    | nil => rfl
    | cons a t => rw [List.dropWhile_cons_of_neg (by simp [hl a (List.mem_cons_self a t)])]
  rw [hd v h, hd v.reverse (fun c hc => h c (List.mem_reverse.mp hc)), List.reverse_reverse]

theorem pyStrip_head {c : Char} {t : Str} (h : isPySpace c = false) :
    ∃ t', pyStrip (c :: t) = c :: t' := by
  unfold pyStrip
  rw [List.dropWhile_cons_of_neg (by simp [h])]
  have hrev : (c :: t).reverse = t.reverse ++ [c] := by simp
  rw [hrev]
  obtain ⟨pre, hpre⟩ : ∃ pre, (t.reverse ++ [c]).dropWhile isPySpace = pre ++ [c] := by
    induction t.reverse with
    | nil => exact ⟨[], by simp [List.dropWhile_cons, h]⟩
    | cons a l ih =>
      by_cases ha : isPySpace a
      · obtain ⟨pre, hp⟩ := ih
        exact ⟨pre, by rw [List.cons_append, List.dropWhile_cons_of_pos ha, hp]⟩
      · exact ⟨a :: l, by rw [List.cons_append, List.dropWhile_cons_of_neg (by simp [ha])]⟩
  rw [hpre]
  exact ⟨pre.reverse, by simp⟩

theorem containsSub_mem {sub l : Str} (h : containsSub sub l = true) :
    ∀ c ∈ sub, c ∈ l := by
  induction l with
  | nil =>
    intro c hc
    unfold containsSub at h
    cases sub with
    | nil => simp at hc
    | cons a t => simp [List.isPrefixOf] at h
  | cons a t ih =>
    intro c hc
    unfold containsSub at h
    rw [Bool.or_eq_true] at h
    rcases h with h | h
    · exact ((List.isPrefixOf_iff_prefix.mp h).sublist.mem hc)
    · exact List.mem_cons_of_mem a (ih h c hc)

/-- Membership in the lowered string. -/
theorem mem_pyLower {c : Char} {s : Str} (h : c ∈ pyLower s) :
    ∃ d ∈ s, d.toLower = c := by
  simpa [pyLower, List.mem_map] using h

/-! ## Consumed-segment properties of matchers -/


theorem consumedOk_epsM {Q} : ConsumedOk epsM Q := by
  intro s r h
  rw [epsM_lang h]
  exact ⟨[], rfl, by simp⟩

theorem consumedOk_dollarM {Q} : ConsumedOk dollarM Q := by
  intro s r h
  rw [(dollarM_lang h).1]
  exact ⟨[], rfl, by simp⟩

theorem consumedOk_litM {w : Str} {Q} (hw : ∀ c ∈ w, Q c) : ConsumedOk (litM w) Q := by
  intro s r h
  exact ⟨w, litM_lang h, hw⟩

theorem consumedOk_litCIM {w : Str} {Q}
    (hw : ∀ c : Char, (∃ d ∈ w, c.toLower = d.toLower) → Q c) :
    ConsumedOk (litCIM w) Q := by
  intro s r h
  obtain ⟨u, happ, _, hchars⟩ := litCIM_lang h
  exact ⟨u, happ, fun c hc => hw c (hchars c hc)⟩

theorem consumedOk_classStarM {p} {Q} (hp : ∀ c, p c = true → Q c) :
    ConsumedOk (classStarM p) Q := by
  intro s r h
  obtain ⟨u, happ, hall⟩ := classStarM_lang h
  exact ⟨u, happ, fun c hc => hp c (by rw [List.all_eq_true] at hall; exact hall c hc)⟩

theorem consumedOk_classPlusM {p} {Q} (hp : ∀ c, p c = true → Q c) :
    ConsumedOk (classPlusM p) Q := by
  intro s r h
  obtain ⟨u, happ, hall, _⟩ := classPlusM_lang h
  exact ⟨u, happ, fun c hc => hp c (by rw [List.all_eq_true] at hall; exact hall c hc)⟩

theorem consumedOk_seqM {m1 m2 Q} (h1 : ConsumedOk m1 Q) (h2 : ConsumedOk m2 Q) :
    ConsumedOk (seqM m1 m2) Q := by
  intro s r h
  obtain ⟨mid, hmid, hr⟩ := seqM_lang h
  obtain ⟨u1, ha1, hq1⟩ := h1 s mid hmid
  obtain ⟨u2, ha2, hq2⟩ := h2 mid r hr
  refine ⟨u1 ++ u2, by rw [ha1, ha2, List.append_assoc], ?_⟩
  intro c hc
  rcases List.mem_append.mp hc with hc | hc
  · exact hq1 c hc
  · exact hq2 c hc

theorem consumedOk_altM {m1 m2 Q} (h1 : ConsumedOk m1 Q) (h2 : ConsumedOk m2 Q) :
    ConsumedOk (altM m1 m2) Q := by
  intro s r h
  rcases altM_lang h with h | h
  · exact h1 s r h
  · exact h2 s r h

theorem consumedOk_optM {m Q} (h1 : ConsumedOk m Q) : ConsumedOk (optM m) Q := by
  intro s r h
  rcases optM_lang h with h | h
  · exact h1 s r h
  · exact ⟨[], by simp [h], by simp⟩

theorem consumedOk_wordsCI {ws : List Str} {Q}
    (hci : ∀ w ∈ ws, ∀ c : Char, (∃ d ∈ w, c.toLower = d.toLower) → Q c)
    (hws : ∀ c, isPySpace c = true → Q c) :
    ConsumedOk (wordsCI ws) Q := by
  induction ws with
  | nil => exact consumedOk_epsM
  | cons w rest ih =>
    cases rest with
    | nil => exact consumedOk_litCIM (hci w (by simp))
    | cons w2 rest2 =>
      have heq : wordsCI (w :: w2 :: rest2) =
          seqM (litCIM w) (seqM wsPlus (wordsCI (w2 :: rest2))) := rfl
      rw [heq]
      exact consumedOk_seqM (consumedOk_litCIM (hci w (by simp)))
        (consumedOk_seqM (consumedOk_classPlusM hws)
          (ih (fun w' hw' => hci w' (List.mem_cons_of_mem w hw'))))

/-- Consumption facts for the matched part of an anchored label match. -/
theorem label_match_decomp {v : Str} (h : labelPatternsMatch v = true) :
    ∃ m ∈ labelAlts, ∃ r ∈ m v, dollarOk r = true := by
  unfold labelPatternsMatch at h
  rw [List.any_eq_true] at h
  obtain ⟨m, hm, h2⟩ := h
  rw [List.any_eq_true] at h2
  obtain ⟨r, hr, hd⟩ := h2
  exact ⟨m, hm, r, hr, hd⟩

/-- Character-wise condition for a case-insensitive literal avoiding `'@'`. -/
theorem ci_cond_ne_at {w : Str} (hw : ∀ d ∈ w, d.toLower ≠ '@') :
    ∀ c : Char, (∃ d ∈ w, c.toLower = d.toLower) → c ≠ '@' := by
  rintro c ⟨d, hd, he⟩ rfl
  refine hw d hd ?_
  rw [← he]
  decide

theorem ws_cond_ne_at : ∀ c : Char, isPySpace c = true → c ≠ '@' := by
  rintro c h rfl
  exact absurd h (by decide)

/-- No alternative of the label catalog consumes an `'@'`. -/
theorem labelAlts_no_at : ∀ m ∈ labelAlts, ConsumedOk m (fun c => c ≠ '@') := by
  intro m hm
  simp only [labelAlts, List.mem_cons, List.not_mem_nil, or_false] at hm
  rcases hm with rfl|rfl|rfl|rfl|rfl|rfl|rfl|rfl|rfl|rfl|rfl|rfl|rfl|rfl|rfl|rfl|rfl|rfl|rfl|rfl|rfl|rfl|rfl
  · exact consumedOk_litCIM (ci_cond_ne_at (by decide))
  · exact consumedOk_litCIM (ci_cond_ne_at (by decide))
  · exact consumedOk_seqM (consumedOk_litCIM (ci_cond_ne_at (by decide)))
      (consumedOk_seqM (consumedOk_optM (consumedOk_litM (by decide)))
        (consumedOk_seqM (consumedOk_classStarM ws_cond_ne_at)
          (consumedOk_seqM (consumedOk_litCIM (ci_cond_ne_at (by decide)))
            (consumedOk_seqM (consumedOk_optM (consumedOk_litM (by decide)))
              (consumedOk_seqM (consumedOk_classStarM ws_cond_ne_at)
                (consumedOk_seqM (consumedOk_litCIM (ci_cond_ne_at (by decide)))
                  (consumedOk_seqM (consumedOk_optM (consumedOk_litM (by decide)))
                    consumedOk_epsM)))))))
  · exact consumedOk_wordsCI (by intro w hw; fin_cases hw <;> exact ci_cond_ne_at (by decide))
      ws_cond_ne_at
  · exact consumedOk_wordsCI (by intro w hw; fin_cases hw <;> exact ci_cond_ne_at (by decide))
      ws_cond_ne_at
  · exact consumedOk_wordsCI (by intro w hw; fin_cases hw <;> exact ci_cond_ne_at (by decide))
      ws_cond_ne_at
  · exact consumedOk_wordsCI (by intro w hw; fin_cases hw <;> exact ci_cond_ne_at (by decide))
      ws_cond_ne_at
  · exact consumedOk_wordsCI (by intro w hw; fin_cases hw <;> exact ci_cond_ne_at (by decide))
      ws_cond_ne_at
  · exact consumedOk_wordsCI (by intro w hw; fin_cases hw <;> exact ci_cond_ne_at (by decide))
      ws_cond_ne_at
  · exact consumedOk_wordsCI (by intro w hw; fin_cases hw <;> exact ci_cond_ne_at (by decide))
      ws_cond_ne_at
  · exact consumedOk_wordsCI (by intro w hw; fin_cases hw <;> exact ci_cond_ne_at (by decide))
      ws_cond_ne_at
  · exact consumedOk_seqM (consumedOk_litCIM (ci_cond_ne_at (by decide)))
      (consumedOk_seqM (consumedOk_classStarM ws_cond_ne_at)
        (consumedOk_seqM (consumedOk_litM (by decide)) consumedOk_epsM))
  · exact consumedOk_litCIM (ci_cond_ne_at (by decide))
  · exact consumedOk_litCIM (ci_cond_ne_at (by decide))
  · exact consumedOk_litCIM (ci_cond_ne_at (by decide))
  · exact consumedOk_seqM (consumedOk_litCIM (ci_cond_ne_at (by decide)))
      (consumedOk_seqM (consumedOk_classStarM ws_cond_ne_at)
        (consumedOk_seqM consumedOk_dollarM consumedOk_epsM))
  · exact consumedOk_wordsCI (by intro w hw; fin_cases hw <;> exact ci_cond_ne_at (by decide))
      ws_cond_ne_at
  · exact consumedOk_wordsCI (by intro w hw; fin_cases hw <;> exact ci_cond_ne_at (by decide))
      ws_cond_ne_at
  · exact consumedOk_wordsCI (by intro w hw; fin_cases hw <;> exact ci_cond_ne_at (by decide))
      ws_cond_ne_at
  · exact consumedOk_litCIM (ci_cond_ne_at (by decide))
  · exact consumedOk_litCIM (ci_cond_ne_at (by decide))
  · exact consumedOk_litCIM (ci_cond_ne_at (by decide))
  · exact consumedOk_litCIM (ci_cond_ne_at (by decide))

/-- A label-catalog match contains no `'@'`. -/
theorem labelPatternsMatch_no_at {v : Str} (h : labelPatternsMatch v = true) :
    '@' ∉ v := by
  obtain ⟨m, hm, r, hr, hd⟩ := label_match_decomp h
  obtain ⟨u, happ, hq⟩ := labelAlts_no_at m hm v r hr
  intro hat
  rw [happ] at hat
  rcases List.mem_append.mp hat with hat | hat
  · exact hq '@' hat rfl
  · unfold dollarOk at hd
    rw [Bool.or_eq_true] at hd
    rcases hd with hd | hd
    · rw [List.isEmpty_iff.mp hd] at hat
      simp at hat
    · rw [eq_of_beq hd] at hat
      simp at hat

theorem litCIM_starts {w s r : Str} (h : r ∈ litCIM w s) : ciStartsWith w s = true := by
  unfold litCIM at h
  by_cases hp : ciStartsWith w s
  · exact hp
  · simp [hp] at h

theorem head_of_lit {w0 : Char} {w' v : Str} (h : ciStartsWith (w0 :: w') v = true) :
    ∃ c t, v = c :: t ∧ c.toLower = w0.toLower := by
  cases v with
  | nil => simp [ciStartsWith] at h
  | cons c t =>
    simp only [ciStartsWith, Bool.and_eq_true, beq_iff_eq] at h
    exact ⟨c, t, rfl, h.1⟩

theorem head_letter_bounds {v : Str} {w0 : Char}
    (hw : 97 ≤ w0.toLower.toNat ∧ w0.toLower.toNat ≤ 122)
    (h : ∃ c t, v = c :: t ∧ c.toLower = w0.toLower) :
    ∃ c t, v = c :: t ∧ 97 ≤ c.toLower.toNat ∧ c.toLower.toNat ≤ 122 := by
  obtain ⟨c, t, hv, hc⟩ := h
  exact ⟨c, t, hv, by rw [hc]; exact hw.1, by rw [hc]; exact hw.2⟩

/-- Every label-catalog match starts with a letter. -/
theorem labelPatternsMatch_head {v : Str} (h : labelPatternsMatch v = true) :
    ∃ c t, v = c :: t ∧ 97 ≤ c.toLower.toNat ∧ c.toLower.toNat ≤ 122 := by
  obtain ⟨m, hm, r, hr, _⟩ := label_match_decomp h
  simp only [labelAlts, List.mem_cons, List.not_mem_nil, or_false] at hm
  rcases hm with rfl|rfl|rfl|rfl|rfl|rfl|rfl|rfl|rfl|rfl|rfl|rfl|rfl|rfl|rfl|rfl|rfl|rfl|rfl|rfl|rfl|rfl|rfl
  · exact head_letter_bounds (by decide) (head_of_lit (litCIM_starts hr))
  · exact head_letter_bounds (by decide) (head_of_lit (litCIM_starts hr))
  · obtain ⟨mid, hmid, _⟩ := seqM_lang hr
    exact head_letter_bounds (by decide) (head_of_lit (litCIM_starts hmid))
  · obtain ⟨mid, hmid, _⟩ := seqM_lang hr
    exact head_letter_bounds (by decide) (head_of_lit (litCIM_starts hmid))
  · obtain ⟨mid, hmid, _⟩ := seqM_lang hr
    exact head_letter_bounds (by decide) (head_of_lit (litCIM_starts hmid))
  · obtain ⟨mid, hmid, _⟩ := seqM_lang hr
    exact head_letter_bounds (by decide) (head_of_lit (litCIM_starts hmid))
  · obtain ⟨mid, hmid, _⟩ := seqM_lang hr
    exact head_letter_bounds (by decide) (head_of_lit (litCIM_starts hmid))
  · obtain ⟨mid, hmid, _⟩ := seqM_lang hr
    exact head_letter_bounds (by decide) (head_of_lit (litCIM_starts hmid))
  · obtain ⟨mid, hmid, _⟩ := seqM_lang hr
    exact head_letter_bounds (by decide) (head_of_lit (litCIM_starts hmid))
  · obtain ⟨mid, hmid, _⟩ := seqM_lang hr
    exact head_letter_bounds (by decide) (head_of_lit (litCIM_starts hmid))
  · obtain ⟨mid, hmid, _⟩ := seqM_lang hr
    exact head_letter_bounds (by decide) (head_of_lit (litCIM_starts hmid))
  · obtain ⟨mid, hmid, _⟩ := seqM_lang hr
    exact head_letter_bounds (by decide) (head_of_lit (litCIM_starts hmid))
  · exact head_letter_bounds (by decide) (head_of_lit (litCIM_starts hr))
  · exact head_letter_bounds (by decide) (head_of_lit (litCIM_starts hr))
  · exact head_letter_bounds (by decide) (head_of_lit (litCIM_starts hr))
  · obtain ⟨mid, hmid, _⟩ := seqM_lang hr
    exact head_letter_bounds (by decide) (head_of_lit (litCIM_starts hmid))
  · obtain ⟨mid, hmid, _⟩ := seqM_lang hr
    exact head_letter_bounds (by decide) (head_of_lit (litCIM_starts hmid))
  · obtain ⟨mid, hmid, _⟩ := seqM_lang hr
    exact head_letter_bounds (by decide) (head_of_lit (litCIM_starts hmid))
  · obtain ⟨mid, hmid, _⟩ := seqM_lang hr
    exact head_letter_bounds (by decide) (head_of_lit (litCIM_starts hmid))
  · exact head_letter_bounds (by decide) (head_of_lit (litCIM_starts hr))
  · exact head_letter_bounds (by decide) (head_of_lit (litCIM_starts hr))
  · exact head_letter_bounds (by decide) (head_of_lit (litCIM_starts hr))
  · exact head_letter_bounds (by decide) (head_of_lit (litCIM_starts hr))


theorem nwLen_mono {m n k} (h : NwLen m n) (hk : n ≤ k) : NwLen m k := by
  intro s r hr hnws
  obtain ⟨u, happ, hlen⟩ := h s r hr hnws
  exact ⟨u, happ, hlen.trans hk⟩

theorem nwLen_epsM : NwLen epsM 0 := by
  intro s r hr _
  rw [epsM_lang hr]
  exact ⟨[], rfl, by simp⟩

theorem nwLen_dollarM : NwLen dollarM 0 := by
  intro s r hr _
  rw [(dollarM_lang hr).1]
  exact ⟨[], rfl, by simp⟩

theorem nwLen_litCIM {w : Str} : NwLen (litCIM w) w.length := by
  intro s r hr _
  obtain ⟨u, happ, hlen, _⟩ := litCIM_lang hr
  exact ⟨u, happ, by omega⟩

theorem nwLen_litM {w : Str} : NwLen (litM w) w.length := by
  intro s r hr _
  exact ⟨w, litM_lang hr, le_refl _⟩

theorem nwLen_wsStar : NwLen wsStar 0 := by
  intro s r hr hnws
  obtain ⟨u, happ, hall⟩ := classStarM_lang hr
  cases u with
  | nil => exact ⟨[], happ, by simp⟩
  | cons a t =>
    exfalso
    have ha : isPySpace a = true := by
      rw [List.all_eq_true] at hall
      exact hall a (by simp)
    have : a ∈ s := by rw [happ]; simp
    rw [hnws a this] at ha
    exact absurd ha (by decide)

theorem nwLen_wsPlus {k : Nat} : NwLen wsPlus k := by
  intro s r hr hnws
  obtain ⟨u, happ, hall, hne⟩ := classPlusM_lang hr
  exfalso
  cases u with
  | nil => exact hne rfl
  | cons a t =>
    have ha : isPySpace a = true := by
      rw [List.all_eq_true] at hall
      exact hall a (by simp)
    have : a ∈ s := by rw [happ]; simp
    rw [hnws a this] at ha
    exact absurd ha (by decide)

theorem nwLen_optM {m n} (h : NwLen m n) : NwLen (optM m) n := by
  intro s r hr hnws
  rcases optM_lang hr with hr | hr
  · exact h s r hr hnws
  · exact ⟨[], by simp [hr], by simp⟩

theorem nwLen_seqM {m1 m2 a b} (h1 : NwLen m1 a) (h2 : NwLen m2 b) :
    NwLen (seqM m1 m2) (a + b) := by
  intro s r hr hnws
  obtain ⟨mid, hmid, hr2⟩ := seqM_lang hr
  obtain ⟨u1, ha1, hl1⟩ := h1 s mid hmid hnws
  have hnws2 : ∀ c ∈ mid, isPySpace c = false := by
    intro c hc
    exact hnws c (by rw [ha1]; exact List.mem_append_right _ hc)
  obtain ⟨u2, ha2, hl2⟩ := h2 mid r hr2 hnws2
  refine ⟨u1 ++ u2, ?_, ?_⟩
  · rw [ha1, ha2, List.append_assoc]
  · rw [List.length_append]
    omega

/-- A multi-word alternative forces a whitespace character into the match. -/
theorem wordsCI_multi_ws {w w2 : Str} {rest : List Str} {v r : Str}
    (h : r ∈ wordsCI (w :: w2 :: rest) v) : ∃ c ∈ v, isPySpace c = true := by
  have heq : wordsCI (w :: w2 :: rest) =
      seqM (litCIM w) (seqM wsPlus (wordsCI (w2 :: rest))) := rfl
  rw [heq] at h
  obtain ⟨mid, hmid, h2⟩ := seqM_lang h
  obtain ⟨mid2, hmid2, _⟩ := seqM_lang h2
  obtain ⟨u2, happ2, hall2, hne2⟩ := classPlusM_lang hmid2
  obtain ⟨u1, happ1, _, _⟩ := litCIM_lang hmid
  cases u2 with
  | nil => exact absurd rfl hne2
  | cons a t =>
    refine ⟨a, ?_, by rw [List.all_eq_true] at hall2; exact hall2 a (by simp)⟩
    rw [happ1, happ2]
    simp

/-- Trailing `$` position is empty on whitespace-free input. -/
theorem dollar_r_nil {v u r : Str} (happ : v = u ++ r) (hd : dollarOk r = true)
    (hnws : ∀ c ∈ v, isPySpace c = false) : r = [] := by
  unfold dollarOk at hd
  rw [Bool.or_eq_true] at hd
  rcases hd with hd | hd
  · exact List.isEmpty_iff.mp hd
  · exfalso
    have hmem : '\n' ∈ v := by
      rw [happ, eq_of_beq hd]
      simp
    have := hnws '\n' hmem
    exact absurd this (by decide)

/-- A whitespace-free label-catalog match has at most 15 characters. -/
theorem labelPatternsMatch_short {v : Str} (h : labelPatternsMatch v = true)
    (hnws : ∀ c ∈ v, isPySpace c = false) : v.length ≤ 15 := by
  obtain ⟨m, hm, r, hr, hd⟩ := label_match_decomp h
  simp only [labelAlts, List.mem_cons, List.not_mem_nil, or_false] at hm
  have litCase : ∀ (w : Str), w.length ≤ 15 → r ∈ litCIM w v → v.length ≤ 15 := by
    intro w hwl hrw
    obtain ⟨u, happ, hulen, _⟩ := litCIM_lang hrw
    have hrn := dollar_r_nil happ hd hnws
    rw [hrn, List.append_nil] at happ
    rw [happ, hulen]
    exact hwl
  have nwCase : ∀ (m' : Str → List Str) (n : Nat), NwLen m' n → n ≤ 15 → r ∈ m' v →
      v.length ≤ 15 := by
    intro m' n hnw hn hrm
    obtain ⟨u, happ, hulen⟩ := hnw v r hrm hnws
    have hrn := dollar_r_nil happ hd hnws
    rw [hrn, List.append_nil] at happ
    rw [happ]
    omega
  have wsCase : ∀ (w w2 : Str) (rest : List Str), r ∈ wordsCI (w :: w2 :: rest) v →
      v.length ≤ 15 := by
    intro w w2 rest hrm
    obtain ⟨c, hc, hcs⟩ := wordsCI_multi_ws hrm
    rw [hnws c hc] at hcs
    exact absurd hcs (by decide)
  rcases hm with rfl|rfl|rfl|rfl|rfl|rfl|rfl|rfl|rfl|rfl|rfl|rfl|rfl|rfl|rfl|rfl|rfl|rfl|rfl|rfl|rfl|rfl|rfl
  · exact litCase _ (by decide) hr
  · exact litCase _ (by decide) hr
  · exact nwCase _ _
      (nwLen_seqM nwLen_litCIM
        (nwLen_seqM (nwLen_optM nwLen_litM)
          (nwLen_seqM nwLen_wsStar
            (nwLen_seqM nwLen_litCIM
              (nwLen_seqM (nwLen_optM nwLen_litM)
                (nwLen_seqM nwLen_wsStar
                  (nwLen_seqM nwLen_litCIM
                    (nwLen_seqM (nwLen_optM nwLen_litM) nwLen_epsM))))))))
      (by decide) hr
  · exact wsCase _ _ _ hr
  · exact wsCase _ _ _ hr
  · exact wsCase _ _ _ hr
  · exact wsCase _ _ _ hr
  · exact wsCase _ _ _ hr
  · exact wsCase _ _ _ hr
  · exact wsCase _ _ _ hr
  · exact wsCase _ _ _ hr
  · exact nwCase _ _
      (nwLen_seqM nwLen_litCIM (nwLen_seqM nwLen_wsStar (nwLen_seqM nwLen_litM nwLen_epsM)))
      (by decide) hr
  · exact litCase _ (by decide) hr
  · exact litCase _ (by decide) hr
  · exact litCase _ (by decide) hr
  · exact nwCase _ _
      (nwLen_seqM nwLen_litCIM (nwLen_seqM nwLen_wsStar (nwLen_seqM nwLen_dollarM nwLen_epsM)))
      (by decide) hr
  · exact wsCase _ _ _ hr
  · exact wsCase _ _ _ hr
  · exact wsCase _ _ _ hr
  · exact litCase _ (by decide) hr
  · exact litCase _ (by decide) hr
  · exact litCase _ (by decide) hr
  · exact litCase _ (by decide) hr

theorem consumedOk_classRepM {p : Char → Bool} {lo hi : Nat} {Q}
    (hp : ∀ c, p c = true → Q c) : ConsumedOk (classRepM p lo hi) Q := by
  intro s r h
  obtain ⟨u, happ, hall, _, _⟩ := classRepM_lang h
  exact ⟨u, happ, fun c hc => hp c (by rw [List.all_eq_true] at hall; exact hall c hc)⟩

theorem consumedOk_classExactM {p : Char → Bool} {n : Nat} {Q}
    (hp : ∀ c, p c = true → Q c) : ConsumedOk (classExactM p n) Q := by
  intro s r h
  obtain ⟨u, happ, hall, _⟩ := classExactM_lang h
  exact ⟨u, happ, fun c hc => hp c (by rw [List.all_eq_true] at hall; exact hall c hc)⟩


theorem suffixOk_of_lang {m : Str → List Str}
    (h : ∀ s r, r ∈ m s → ∃ u, s = u ++ r ∧ True) : SuffixOk m := by
  intro s r hr
  obtain ⟨u, happ, _⟩ := h s r hr
  exact ⟨u, happ.symm⟩

theorem suffixOk_epsM : SuffixOk epsM := by
  intro s r h
  rw [epsM_lang h]

theorem suffixOk_dollarM : SuffixOk dollarM := by
  intro s r h
  rw [(dollarM_lang h).1]

theorem suffixOk_litM {w : Str} : SuffixOk (litM w) := by
  intro s r h
  exact ⟨w, (litM_lang h).symm⟩

theorem suffixOk_litCIM {w : Str} : SuffixOk (litCIM w) := by
  intro s r h
  obtain ⟨u, happ, _, _⟩ := litCIM_lang h
  exact ⟨u, happ.symm⟩

theorem suffixOk_classStarM {p} : SuffixOk (classStarM p) := by
  intro s r h
  obtain ⟨u, happ, _⟩ := classStarM_lang h
  exact ⟨u, happ.symm⟩

theorem suffixOk_classPlusM {p} : SuffixOk (classPlusM p) := by
  intro s r h
  obtain ⟨u, happ, _, _⟩ := classPlusM_lang h
  exact ⟨u, happ.symm⟩

theorem suffixOk_classRepM {p lo hi} : SuffixOk (classRepM p lo hi) := by
  intro s r h
  obtain ⟨u, happ, _, _, _⟩ := classRepM_lang h
  exact ⟨u, happ.symm⟩

theorem suffixOk_classExactM {p n} : SuffixOk (classExactM p n) := by
  intro s r h
  obtain ⟨u, happ, _, _⟩ := classExactM_lang h
  exact ⟨u, happ.symm⟩

theorem suffixOk_seqM {m1 m2} (h1 : SuffixOk m1) (h2 : SuffixOk m2) :
    SuffixOk (seqM m1 m2) := by
  intro s r h
  obtain ⟨mid, hmid, hr⟩ := seqM_lang h
  exact (h2 mid r hr).trans (h1 s mid hmid)

theorem suffixOk_altM {m1 m2} (h1 : SuffixOk m1) (h2 : SuffixOk m2) :
    SuffixOk (altM m1 m2) := by
  intro s r h
  rcases altM_lang h with h | h
  · exact h1 s r h
  · exact h2 s r h

theorem suffixOk_optM {m} (h1 : SuffixOk m) : SuffixOk (optM m) := by
  intro s r h
  rcases optM_lang h with h | h
  · exact h1 s r h
  · rw [h]


theorem digit_not_ws {c : Char} (h : c.isDigit = true) : isPySpace c = false := by
  by_cases hw : isPySpace c
  · rcases isPySpace_cases hw with rfl|rfl|rfl|rfl|rfl|rfl <;> exact absurd h (by decide)
  · simpa using hw

theorem digit_not_punct {c : Char} (h : c.isDigit = true) : isPunctClass c = false := by
  by_cases hp : isPunctClass c
  · exfalso
    simp only [isPunctClass, Bool.or_eq_true, beq_iff_eq] at hp
    rcases hp with ((hp | rfl) | rfl) | rfl
    · rw [digit_not_ws h] at hp
      exact absurd hp (by decide)
    · exact absurd h (by decide)
    · exact absurd h (by decide)
    · exact absurd h (by decide)
  · simpa using hp

/-- Loss-line captures contain no newline. -/
theorem dateTimeLineCap_chars {text part : Str} (h : dateTimeLineCap text = some part) :
    ∀ c ∈ part, c ≠ '\n' := by
  obtain ⟨tl, _, hm⟩ := searchCap_spec h
  obtain ⟨s1, s2, _, hs2, _, hcap⟩ := matchPat_spec hm
  obtain ⟨u, happ, hall, _⟩ := classPlusM_lang hs2
  have hv : part = u := capture_eq_consumed happ hcap
  rw [hv]
  intro c hc
  rw [List.all_eq_true] at hall
  simpa using hall c hc

/-- A time-token capture starts with a digit and holds only time characters;
its characters come from the searched string. -/
theorem timeTokenCap_chars {part v : Str} (h : timeTokenCap part = some v) :
    (∃ c t, v = c :: t ∧ c.isDigit = true) ∧ (∀ c ∈ v, isTimeChar c = true) ∧
    (∀ c ∈ v, c ∈ part) := by
  obtain ⟨tl, hsuf, hm⟩ := searchCap_spec h
  obtain ⟨s1, s2, hs1, hs2, _, hcap⟩ := matchPat_spec hm
  have hs1t : s1 = tl := epsM_lang hs1
  have hdigitQ : ∀ c : Char, c.isDigit = true → isTimeChar c = true := by
    intro c hc
    simp [isTimeChar, hc]
  have hwsQ : ∀ c : Char, isPySpace c = true → isTimeChar c = true := by
    intro c hc
    simp [isTimeChar, hc]
  have hamQ : ∀ c : Char, (∃ d ∈ ("AM".data : Str), c.toLower = d.toLower) →
      isTimeChar c = true := by
    rintro c ⟨d, hd, he⟩
    fin_cases hd
    · unfold isTimeChar
      rw [he, show ('A' : Char).toLower = 'a' from by decide]
      simp
    · unfold isTimeChar
      rw [he, show ('M' : Char).toLower = 'm' from by decide]
      simp
  have hpmQ : ∀ c : Char, (∃ d ∈ ("PM".data : Str), c.toLower = d.toLower) →
      isTimeChar c = true := by
    rintro c ⟨d, hd, he⟩
    fin_cases hd
    · unfold isTimeChar
      rw [he, show ('P' : Char).toLower = 'p' from by decide]
      simp
    · unfold isTimeChar
      rw [he, show ('M' : Char).toLower = 'm' from by decide]
      simp
  have hco : ∃ u, s1 = u ++ s2 ∧ ∀ c ∈ u, isTimeChar c = true := by
    refine (consumedOk_altM
      (consumedOk_seqM (consumedOk_classRepM hdigitQ)
        (consumedOk_seqM (consumedOk_classStarM hwsQ)
          (consumedOk_seqM (consumedOk_litM (by decide))
            (consumedOk_seqM (consumedOk_classStarM hwsQ)
              (consumedOk_seqM (consumedOk_classExactM hdigitQ)
                (consumedOk_seqM (consumedOk_classStarM hwsQ)
                  (consumedOk_seqM
                    (consumedOk_optM (consumedOk_altM (consumedOk_litCIM hamQ)
                      (consumedOk_litCIM hpmQ)))
                    consumedOk_epsM)))))))
      (consumedOk_altM
        (consumedOk_seqM (consumedOk_classRepM hdigitQ)
          (consumedOk_seqM (consumedOk_classStarM hwsQ)
            (consumedOk_seqM (consumedOk_litCIM hamQ) consumedOk_epsM)))
        (consumedOk_seqM (consumedOk_classRepM hdigitQ)
          (consumedOk_seqM (consumedOk_classStarM hwsQ)
            (consumedOk_seqM (consumedOk_litCIM hpmQ) consumedOk_epsM)))))
      s1 s2 hs2
  obtain ⟨u, happ, hq⟩ := hco
  have hv : v = u := capture_eq_consumed happ hcap
  have hchars : ∀ c ∈ v, isTimeChar c = true := by
    intro c hc
    rw [hv] at hc
    exact hq c hc
  have hmem : ∀ c ∈ v, c ∈ part := by
    intro c hc
    rw [hv] at hc
    have h1 : c ∈ s1 := by
      rw [happ]
      exact List.mem_append_left _ hc
    rw [hs1t] at h1
    exact hsuf.subset h1
  refine ⟨?_, hchars, hmem⟩
  have hhead : ∀ {m2 : Str → List Str}, SuffixOk m2 →
      s2 ∈ seqM (classRepM Char.isDigit 1 2) m2 s1 →
      ∃ c t, v = c :: t ∧ c.isDigit = true := by
    intro m2 hsfx hmem2
    obtain ⟨mid, hmid, hrest⟩ := seqM_lang hmem2
    obtain ⟨u1, happ1, hall1, hlo, _⟩ := classRepM_lang hmid
    obtain ⟨u2, happ2⟩ := hsfx mid s2 hrest
    have hs1d : s1 = (u1 ++ u2) ++ s2 := by
      rw [happ1, ← happ2, List.append_assoc]
    have hv2 : v = u1 ++ u2 := capture_eq_consumed hs1d hcap
    cases u1 with
    | nil => simp at hlo
    | cons c t1 =>
      refine ⟨c, t1 ++ u2, by rw [hv2]; simp, ?_⟩
      rw [List.all_eq_true] at hall1
      exact hall1 c (by simp)
  rcases altM_lang hs2 with hb | hb
  · exact hhead
      (suffixOk_seqM suffixOk_classStarM
        (suffixOk_seqM suffixOk_litM
          (suffixOk_seqM suffixOk_classStarM
            (suffixOk_seqM suffixOk_classExactM
              (suffixOk_seqM suffixOk_classStarM
                (suffixOk_seqM (suffixOk_optM (suffixOk_altM suffixOk_litCIM suffixOk_litCIM))
                  suffixOk_epsM)))))) hb
  · rcases altM_lang hb with hb2 | hb2
    · exact hhead
        (suffixOk_seqM suffixOk_classStarM
          (suffixOk_seqM suffixOk_litCIM suffixOk_epsM)) hb2
    · exact hhead
        (suffixOk_seqM suffixOk_classStarM
          (suffixOk_seqM suffixOk_litCIM suffixOk_epsM)) hb2

/-- The e-mail capture contains an `'@'` and no whitespace. -/
theorem emailCap_chars {text v : Str} (h : emailCap text = some v) :
    v ≠ [] ∧ '@' ∈ v ∧ ∀ c ∈ v, isPySpace c = false := by
  obtain ⟨tl, _, hm⟩ := searchCap_spec h
  obtain ⟨s1, s2, _, hs2, _, hcap⟩ := matchPat_spec hm
  obtain ⟨mid1, hm1, hrest1⟩ := seqM_lang hs2
  obtain ⟨u1, happ1, hall1, hne1⟩ := classPlusM_lang hm1
  obtain ⟨mid2, hm2, hrest2⟩ := seqM_lang hrest1
  have happ2 : mid1 = '@' :: mid2 := litM_lang hm2
  obtain ⟨mid3, hm3, hrest3⟩ := seqM_lang hrest2
  obtain ⟨u3, happ3, hall3, _⟩ := classPlusM_lang hm3
  have hs2e : s2 = mid3 := epsM_lang hrest3
  have hs1d : s1 = (u1 ++ '@' :: u3) ++ s2 := by
    rw [happ1, happ2, happ3, hs2e]
    simp
  have hv : v = u1 ++ '@' :: u3 := capture_eq_consumed hs1d hcap
  rw [List.all_eq_true] at hall1 hall3
  refine ⟨by rw [hv]; simp, by rw [hv]; simp, ?_⟩
  intro c hc
  rw [hv] at hc
  rcases List.mem_append.mp hc with hc | hc
  · have := hall1 c hc
    simp only [isEmailLocalChar, Bool.and_eq_true] at this
    simpa using this.1
  · rcases List.mem_cons.mp hc with rfl | hc
    · decide
    · have := hall3 c hc
      simpa [isNonWs] using this

/-- The VIN capture is exactly 17 characters from the VIN class. -/
theorem vinCap_chars {text v : Str} (h : vinCap text = some v) :
    v.length = 17 ∧ ∀ c ∈ v, isVinChar c = true := by
  obtain ⟨tl, _, hm⟩ := searchCap_spec h
  obtain ⟨s1, s2, _, hs2, _, hcap⟩ := matchPat_spec hm
  obtain ⟨u, happ, hall, hlen⟩ := classExactM_lang hs2
  have hv : v = u := capture_eq_consumed happ hcap
  rw [List.all_eq_true] at hall
  exact ⟨by rw [hv]; exact hlen, by rw [hv]; exact hall⟩

/-- The stored incident time starts with a digit, holds only time characters,
and contains no newline. -/
theorem extractIncidentTime_props {text tv : Str} (h : extractIncidentTime text = some tv) :
    (∃ c t, tv = c :: t ∧ c.isDigit = true) ∧ (∀ c ∈ tv, isTimeChar c = true) ∧
    '\n' ∉ tv := by
  unfold extractIncidentTime at h
  cases hpart : dateTimeLineCap text with
  | none => rw [hpart] at h; simp at h
  | some part =>
    rw [hpart] at h
    dsimp only at h
    cases hv : timeTokenCap part with
    | none => rw [hv] at h; simp at h
    | some v =>
      rw [hv] at h
      simp only [Option.some_inj] at h
      obtain ⟨⟨c, t, hvct, hcd⟩, hchars, hmemp⟩ := timeTokenCap_chars hv
      have hnws : isPySpace c = false := digit_not_ws hcd
      obtain ⟨t', ht'⟩ : ∃ t', pyStrip v = c :: t' := by
        rw [hvct]
        exact pyStrip_head hnws
      have htv : tv = c :: t' := by rw [← h, ht']
      refine ⟨⟨c, t', htv, hcd⟩, ?_, ?_⟩
      · intro x hx
        rw [← h] at hx
        exact hchars x (mem_pyStrip hx)
      · intro hx
        rw [← h] at hx
        have := dateTimeLineCap_chars hpart '\n' (hmemp '\n' (mem_pyStrip hx))
        exact this rfl

theorem timeChar_lower {d : Char} (h : isTimeChar d = true) :
    (d.toLower.isDigit || isPySpace d.toLower || d.toLower == ':' ||
     d.toLower == 'a' || d.toLower == 'm' || d.toLower == 'p') = true := by
  simp only [isTimeChar, Bool.or_eq_true, beq_iff_eq] at h
  rcases h with ((((hd | hw) | hc) | ha) | hm) | hp
  · rw [digit_toLower hd]
    simp [hd]
  · rcases isPySpace_cases hw with rfl|rfl|rfl|rfl|rfl|rfl <;> decide
  · subst hc
    decide
  · rw [ha]
    decide
  · rw [hm]
    decide
  · rw [hp]
    decide

theorem vin_not_ws {c : Char} (h : isVinChar c = true) : isPySpace c = false := by
  by_cases hw : isPySpace c
  · rcases isPySpace_cases hw with rfl|rfl|rfl|rfl|rfl|rfl <;> exact absurd h (by decide)
  · simpa using hw

theorem vin_not_punct {c : Char} (h : isVinChar c = true) : isPunctClass c = false := by
  by_cases hp : isPunctClass c
  · exfalso
    simp only [isPunctClass, Bool.or_eq_true, beq_iff_eq] at hp
    rcases hp with ((hp | rfl) | rfl) | rfl
    · rw [vin_not_ws h] at hp
      exact absurd hp (by decide)
    · exact absurd h (by decide)
    · exact absurd h (by decide)
    · exact absurd h (by decide)
  · simpa using hp

/-- The label/placeholder classifier accepts every storable time value:
a digit-headed newline-free string of time characters. -/
theorem filter_false_time {c : Char} {t : Str} (hcd : c.isDigit = true)
    (hchars : ∀ x ∈ c :: t, isTimeChar x = true) (hnl : '\n' ∉ c :: t) :
    _is_form_label_or_placeholder (some (c :: t)) 200 = false := by
  obtain ⟨t2, hs⟩ := pyStrip_head (digit_not_ws hcd) (t := t)
  have hs_chars : ∀ x ∈ pyStrip (c :: t), isTimeChar x = true :=
    fun x hx => hchars x (mem_pyStrip hx)
  have hs_nl : '\n' ∉ pyStrip (c :: t) := fun hx => hnl (mem_pyStrip hx)
  simp only [_is_form_label_or_placeholder]
  split_ifs with h1 h2 h3 h4 h5 h6 h7
  · exfalso
    rw [hs] at h1
    simp at h1
  · exfalso
    rw [Bool.or_eq_true, Bool.or_eq_true] at h2
    rcases h2 with (h2 | h2) | h2
    · rw [hs] at h2
      have hc : c = ':' := by
        have := eq_of_beq h2
        exact (List.cons.injEq _ _ _ _ ▸ this).1
      rw [hc] at hcd
      exact absurd hcd (by decide)
    · rw [hs] at h2
      simp at h2
    · unfold onlyPunct at h2
      rw [Bool.and_eq_true, List.all_eq_true] at h2
      have hcp : isPunctClass c = true := h2.2 c (by rw [hs]; simp)
      rw [digit_not_punct hcd] at hcp
      exact absurd hcp (by decide)
  · exfalso
    rw [Bool.and_eq_true, Bool.and_eq_true] at h3
    have hcont := h3.1.2
    have : '\n' ∈ pyStrip (c :: t) := by
      simpa [List.contains] using hcont
    exact hs_nl this
  · exfalso
    obtain ⟨c0, t0, he, hlo, _⟩ := labelPatternsMatch_head h4
    rw [hs] at he
    have hc0 : c0 = c := ((List.cons.injEq _ _ _ _ ▸ he.symm).1)
    rw [hc0] at hlo
    exact digit_head_not_letter hcd hlo
  · exfalso
    rw [List.any_eq_true] at h5
    obtain ⟨sub, hsub, hcontains⟩ := h5
    have hbad : ∀ sub ∈ LABEL_SUBSTRINGS, ∃ x ∈ sub,
        (x.isDigit || isPySpace x || x == ':' || x == 'a' || x == 'm' || x == 'p') = false := by
      decide
    obtain ⟨x, hx, hxbad⟩ := hbad sub hsub
    have hxin : x ∈ pyLower (pyStrip (c :: t)) := containsSub_mem hcontains x hx
    obtain ⟨d, hd, hdl⟩ := mem_pyLower hxin
    have hgood := timeChar_lower (hs_chars d hd)
    rw [hdl] at hgood
    rw [hgood] at hxbad
    exact absurd hxbad (by decide)
  · exfalso
    have h6' : pyLower (pyStrip (c :: t)) ∈ PLACEHOLDER_WORDS := by
      simpa [List.contains] using h6
    rw [hs] at h6'
    have hhead : ∀ (w0 : Char) (wr : Str), pyLower (c :: t2) = w0 :: wr → c.toLower = w0 := by
      intro w0 wr hw
      simp only [pyLower, List.map_cons] at hw
      exact (List.cons.injEq _ _ _ _ ▸ hw).1
    simp only [PLACEHOLDER_WORDS, List.mem_cons, List.not_mem_nil, or_false] at h6'
    rcases h6' with h6' | h6' | h6' | h6' | h6' <;>
    · have := hhead _ _ h6'
      rw [digit_toLower hcd] at this
      rw [this] at hcd
      exact absurd hcd (by decide)
  · exfalso
    rw [Bool.or_eq_true, Bool.or_eq_true] at h7
    have hhead : ∀ (w0 : Char) (wr : Str), pyUpper (pyStrip (c :: t)) = w0 :: wr →
        c.toUpper = w0 := by
      intro w0 wr hw
      rw [hs] at hw
      simp only [pyUpper, List.map_cons] at hw
      exact (List.cons.injEq _ _ _ _ ▸ hw).1
    rcases h7 with (h7 | h7) | h7 <;>
    · have := hhead _ _ (eq_of_beq h7)
      rw [digit_toUpper hcd] at this
      rw [this] at hcd
      exact absurd hcd (by decide)
  · rfl

/-- The label/placeholder classifier accepts every storable e-mail value:
a non-empty whitespace-free string containing an `'@'`. -/
theorem filter_false_email {v : Str} (hne : v ≠ []) (hat : '@' ∈ v)
    (hnws : ∀ c ∈ v, isPySpace c = false) :
    _is_form_label_or_placeholder (some v) 200 = false := by
  have hs : pyStrip v = v := pyStrip_of_no_ws hnws
  simp only [_is_form_label_or_placeholder, hs]
  split_ifs with h1 h2 h3 h4 h5 h6 h7
  · exfalso
    rw [Bool.or_eq_true] at h1
    rcases h1 with h1 | h1 <;>
      exact hne (List.isEmpty_iff.mp h1)
  · exfalso
    rw [Bool.or_eq_true, Bool.or_eq_true] at h2
    rcases h2 with (h2 | h2) | h2
    · rw [eq_of_beq h2] at hat
      rcases List.mem_cons.mp hat with hat | hat
      · exact absurd hat (by decide)
      · simp at hat
    · exact hne (List.isEmpty_iff.mp h2)
    · unfold onlyPunct at h2
      rw [Bool.and_eq_true, List.all_eq_true] at h2
      have := h2.2 '@' hat
      exact absurd this (by decide)
  · exfalso
    rw [Bool.and_eq_true, Bool.and_eq_true] at h3
    have : '\n' ∈ v := by
      simpa [List.contains] using h3.1.2
    have := hnws '\n' this
    exact absurd this (by decide)
  · exact labelPatternsMatch_no_at h4 hat
  · exfalso
    rw [List.any_eq_true] at h5
    obtain ⟨sub, hsub, hcontains⟩ := h5
    have hsp : ∀ sub ∈ LABEL_SUBSTRINGS, ' ' ∈ sub := by decide
    have hspin : ' ' ∈ pyLower v := containsSub_mem hcontains ' ' (hsp sub hsub)
    obtain ⟨d, hd, hdl⟩ := mem_pyLower hspin
    have : d = ' ' := toLower_eq_space hdl
    rw [this] at hd
    have := hnws ' ' hd
    exact absurd this (by decide)
  · exfalso
    have h6' : pyLower v ∈ PLACEHOLDER_WORDS := by
      simpa [List.contains] using h6
    have hatin : '@' ∈ pyLower v := by
      have : ('@' : Char).toLower = '@' := by decide
      rw [← this]
      exact List.mem_map_of_mem _ hat
    simp only [PLACEHOLDER_WORDS, List.mem_cons, List.not_mem_nil, or_false] at h6'
    rcases h6' with h6' | h6' | h6' | h6' | h6' <;>
    · rw [h6'] at hatin
      exact absurd hatin (by decide)
  · exfalso
    have hatin : '@' ∈ pyUpper v := by
      have : ('@' : Char).toUpper = '@' := by decide
      rw [← this]
      exact List.mem_map_of_mem _ hat
    rw [Bool.or_eq_true, Bool.or_eq_true] at h7
    rcases h7 with (h7 | h7) | h7 <;>
    · rw [eq_of_beq h7] at hatin
      exact absurd hatin (by decide)
  · rfl

/-- The label/placeholder classifier accepts every storable VIN value:
17 characters of the VIN class. -/
theorem filter_false_vin {v : Str} (hlen : v.length = 17)
    (hchars : ∀ c ∈ v, isVinChar c = true) :
    _is_form_label_or_placeholder (some v) 200 = false := by
  have hnws : ∀ c ∈ v, isPySpace c = false := fun c hc => vin_not_ws (hchars c hc)
  have hs : pyStrip v = v := pyStrip_of_no_ws hnws
  have hne : v ≠ [] := by
    intro hv
    rw [hv] at hlen
    simp at hlen
  simp only [_is_form_label_or_placeholder, hs]
  split_ifs with h1 h2 h3 h4 h5 h6 h7
  · exfalso
    rw [Bool.or_eq_true] at h1
    rcases h1 with h1 | h1 <;>
      exact hne (List.isEmpty_iff.mp h1)
  · exfalso
    rw [Bool.or_eq_true, Bool.or_eq_true] at h2
    rcases h2 with (h2 | h2) | h2
    · rw [eq_of_beq h2] at hlen
      simp at hlen
    · exact hne (List.isEmpty_iff.mp h2)
    · unfold onlyPunct at h2
      rw [Bool.and_eq_true, List.all_eq_true] at h2
      cases v with
      | nil => exact hne rfl
      | cons a t =>
        have hp := h2.2 a (by simp)
        rw [vin_not_punct (hchars a (by simp))] at hp
        exact absurd hp (by decide)
  · exfalso
    rw [Bool.and_eq_true, Bool.and_eq_true] at h3
    have : '\n' ∈ v := by
      simpa [List.contains] using h3.1.2
    have := hnws '\n' this
    exact absurd this (by decide)
  · exfalso
    have := labelPatternsMatch_short h4 hnws
    omega
  · exfalso
    rw [List.any_eq_true] at h5
    obtain ⟨sub, hsub, hcontains⟩ := h5
    have hsp : ∀ sub ∈ LABEL_SUBSTRINGS, ' ' ∈ sub := by decide
    have hspin : ' ' ∈ pyLower v := containsSub_mem hcontains ' ' (hsp sub hsub)
    obtain ⟨d, hd, hdl⟩ := mem_pyLower hspin
    have : d = ' ' := toLower_eq_space hdl
    rw [this] at hd
    have := hnws ' ' hd
    exact absurd this (by decide)
  · exfalso
    have h6' : pyLower v ∈ PLACEHOLDER_WORDS := by
      simpa [List.contains] using h6
    have hlow : (pyLower v).length = 17 := by
      rw [pyLower, List.length_map, hlen]
    simp only [PLACEHOLDER_WORDS, List.mem_cons, List.not_mem_nil, or_false] at h6'
    rcases h6' with h6' | h6' | h6' | h6' | h6' <;>
    · rw [h6'] at hlow
      simp at hlow
  · exfalso
    have hup : (pyUpper v).length = 17 := by
      rw [pyUpper, List.length_map, hlen]
    rw [Bool.or_eq_true, Bool.or_eq_true] at h7
    rcases h7 with (h7 | h7) | h7 <;>
    · rw [eq_of_beq h7] at hup
      simp at hup
  · rfl

/-- A value that passes the classifier is non-empty. -/
theorem filter_ne_nil {v : Str} {b : Nat}
    (h : _is_form_label_or_placeholder (some v) b = false) : v ≠ [] := by
  intro hv
  rw [hv] at h
  simp [_is_form_label_or_placeholder] at h

/-- Policy-number values come from one of the three accepted captures. -/
theorem extractPolicyNumber_source {text v : Str}
    (h : extractPolicyNumber text = some v) :
    acceptCap 50 (pnNaicCap text) = some v ∨ acceptCap 50 (pnFormCap text) = some v ∨
    acceptCap 50 (pnGenericCap (pyLower text)) = some v := by
  have h' : tryFallback (policyLoopResult text)
      (acceptCap 50 (pnGenericCap (pyLower text))) = some v := h
  rcases tryFallback_some h' with h2 | h2
  · unfold policyLoopResult at h2
    cases hn : acceptCap 50 (pnNaicCap text) with
    | some w =>
      rw [hn] at h2
      exact Or.inl h2
    | none =>
      rw [hn] at h2
      exact Or.inr (Or.inl h2)
  · exact Or.inr (Or.inr h2)

/-- Policyholder-name values come from one of the two accepted captures. -/
theorem extractPolicyholderName_source {text v : Str}
    (h : extractPolicyholderName text = some v) :
    acceptCapTrunc 200 200 (nameFormCap text) = some v ∨
    acceptCapTrunc 200 200 (nameGenericCap (pyLower text)) = some v := by
  have h' : tryFallback (acceptCapTrunc 200 200 (nameFormCap text))
      (acceptCapTrunc 200 200 (nameGenericCap (pyLower text))) = some v := h
  exact tryFallback_some h'

/-- Street values come from the primary capture or the generic fallback. -/
theorem extractLocationStreet_source {text v : Str}
    (h : extractLocationStreet text = some v) :
    acceptCapTrunc 200 300 (streetCap text) = some v ∨
    acceptCapTrunc 200 300 (locationFallbackCap text) = some v := by
  unfold extractLocationStreet at h
  dsimp only at h
  split_ifs at h with hc
  · exact Or.inl h
  · cases hf : acceptCapTrunc 200 300 (locationFallbackCap text) with
    | some w =>
      rw [hf] at h
      exact Or.inr h
    | none =>
      rw [hf] at h
      exact Or.inl h

/-- The claimant base has an accepted or inherited name and no phone/e-mail. -/
theorem extractClaimantBase_fields {text : Str} {pname : Option Str} {c : InvolvedParty}
    (h : extractClaimantBase text pname = some c) :
    (acceptCap 200 (driverCap text) = c.name ∨ acceptCap 200 (ownerCap text) = c.name ∨
      (pname = c.name ∧ optStrTruthy pname = true)) ∧
    c.phone = none ∧ c.email = none := by
  unfold extractClaimantBase at h
  dsimp only at h
  cases hd : acceptCap 200 (driverCap text) with
  | some w =>
    rw [hd] at h
    dsimp only at h
    have := Option.some_inj.mp h
    subst this
    exact ⟨Or.inl rfl, rfl, rfl⟩
  | none =>
    rw [hd] at h
    dsimp only at h
    cases ho : acceptCap 200 (ownerCap text) with
    | some w =>
      rw [ho] at h
      dsimp only at h
      have := Option.some_inj.mp h
      subst this
      exact ⟨Or.inr (Or.inl rfl), rfl, rfl⟩
    | none =>
      rw [ho] at h
      dsimp only at h
      split_ifs at h with ht
      have := Option.some_inj.mp h
      subst this
      exact ⟨Or.inr (Or.inr ⟨rfl, ht⟩), rfl, rfl⟩

/-- Field provenance of the final claimant. -/
theorem extractClaimant_fields {text : Str} {pname : Option Str} {cl : InvolvedParty}
    (h : extractClaimant text pname = some cl) :
    (acceptCap 200 (driverCap text) = cl.name ∨ acceptCap 200 (ownerCap text) = cl.name ∨
      (pname = cl.name ∧ optStrTruthy pname = true)) ∧
    (∀ v, cl.phone = some v → acceptCapTrunc 30 50 (phoneCap text) = some v) ∧
    (∀ v, cl.email = some v → ∃ ev, emailCap text = some ev ∧ v = pyStrip ev) := by
  unfold extractClaimant at h
  cases hb : extractClaimantBase text pname with
  | none =>
    rw [hb] at h
    simp at h
  | some c =>
    rw [hb] at h
    dsimp only at h
    obtain ⟨hname, hphone, hemail⟩ := extractClaimantBase_fields hb
    cases hp : acceptCapTrunc 30 50 (phoneCap text) with
    | some pv =>
      rw [hp] at h
      dsimp only at h
      cases he : emailCap text with
      | some ev =>
        rw [he] at h
        dsimp only at h
        have := Option.some_inj.mp h
        subst this
        exact ⟨hname, fun v hv => by rw [← Option.some_inj.mp hv.symm],
          fun v hv => ⟨ev, rfl, (Option.some_inj.mp hv).symm⟩⟩
      | none =>
        rw [he] at h
        dsimp only at h
        have := Option.some_inj.mp h
        subst this
        exact ⟨hname, fun v hv => by rw [← Option.some_inj.mp hv.symm],
          fun v hv => by rw [hemail] at hv; exact absurd hv (by simp)⟩
    | none =>
      rw [hp] at h
      dsimp only at h
      cases he : emailCap text with
      | some ev =>
        rw [he] at h
        dsimp only at h
        have := Option.some_inj.mp h
        subst this
        exact ⟨hname, fun v hv => by rw [hphone] at hv; exact absurd hv (by simp),
          fun v hv => ⟨ev, rfl, (Option.some_inj.mp hv).symm⟩⟩
      | none =>
        rw [he] at h
        dsimp only at h
        have := Option.some_inj.mp h
        subst this
        exact ⟨hname, fun v hv => by rw [hphone] at hv; exact absurd hv (by simp),
          fun v hv => by rw [hemail] at hv; exact absurd hv (by simp)⟩

/-- Field provenance of the constructed asset. -/
theorem extractAsset_fields {text : Str} {a : AssetDetails}
    (h : extractAsset text = some a) :
    a.asset_type = some "vehicle".data ∧
    a.asset_id = (vinCap text).map pyStrip ∧
    a.make = makeModelVal (makeCap text) ∧
    a.model = makeModelVal (modelCap text) := by
  unfold extractAsset at h
  dsimp only at h
  split_ifs at h with hc
  have := Option.some_inj.mp h
  subst this
  exact ⟨rfl, rfl, rfl, rfl⟩

/-- Synchronisation only touches the initial estimate. -/
theorem syncAsset_fields (a : AssetDetails) :
    (syncAsset a).asset_type = a.asset_type ∧ (syncAsset a).asset_id = a.asset_id ∧
    (syncAsset a).make = a.make ∧ (syncAsset a).model = a.model := by
  unfold syncAsset
  split_ifs <;> exact ⟨rfl, rfl, rfl, rfl⟩

/-- Stored make/model values are empty or classifier-accepted. -/
theorem makeModelVal_cases {cap : Option Str} {v : Str} (h : makeModelVal cap = some v) :
    v = [] ∨ _is_form_label_or_placeholder (some v) 50 = false := by
  unfold makeModelVal at h
  cases hc : cap with
  | none =>
    rw [hc] at h
    simp at h
  | some c =>
    rw [hc] at h
    dsimp only at h
    split_ifs at h with hf
    have hv := Option.some_inj.mp h
    subst hv
    rw [Bool.and_eq_true] at hf
    by_cases he : pyStrip c = []
    · exact Or.inl he
    · right
      by_cases hff : _is_form_label_or_placeholder (some (pyStrip c)) 50
      · exfalso
        exact hf ⟨by simpa using he, hff⟩
      · simpa using hff

set_option maxRecDepth 20000 in
/-- C8 counterexample: on the document "MAKE:   " the extractor creates an
asset whose make is the empty string (the capture strips to empty and skips
the classifier) and whose asset_type is the constant "vehicle", a value the
classifier itself rejects as a form label. -/
theorem populated_fields_counterexample :
    ((extract_from_text "MAKE:   ").asset.map AssetDetails.make) = some (some []) ∧
    ((extract_from_text "MAKE:   ").asset.map AssetDetails.asset_type) =
      some (some "vehicle".data) ∧
    _is_form_label_or_placeholder (some []) 200 = true ∧
    _is_form_label_or_placeholder (some "vehicle".data) 200 = true := by decide

/-- C8 (amended): every populated string field that is stored through the
classifier guard holds a non-empty value that passed the classifier at the
bound used at its call site; the three unchecked captures (incident time,
claimant e-mail, VIN) also always hold non-empty values the classifier would
accept; but asset_type, when populated, is the constant "vehicle" — which the
classifier itself rejects — and make/model may be stored as the empty string
when their capture strips to empty, otherwise they pass the classifier. -/
theorem populated_fields_amended (text : Str) :
    (∀ v, (extract_from_raw_text text).policy.policy_number = some v →
      _is_form_label_or_placeholder (some v) 50 = false ∧ v ≠ []) ∧
    (∀ v, (extract_from_raw_text text).policy.policyholder_name = some v →
      _is_form_label_or_placeholder (some v) 200 = false ∧ v ≠ []) ∧
    (∀ v, (extract_from_raw_text text).incident.time = some v →
      _is_form_label_or_placeholder (some v) 200 = false ∧ v ≠ []) ∧
    (∀ v, (extract_from_raw_text text).incident.location_street = some v →
      _is_form_label_or_placeholder (some v) 200 = false ∧ v ≠ []) ∧
    (∀ v, (extract_from_raw_text text).incident.location_city_state_zip = some v →
      _is_form_label_or_placeholder (some v) 100 = false ∧ v ≠ []) ∧
    (∀ v, (extract_from_raw_text text).incident.location_country = some v →
      _is_form_label_or_placeholder (some v) 80 = false ∧ v ≠ []) ∧
    (∀ v, (extract_from_raw_text text).incident.description = some v →
      _is_form_label_or_placeholder (some v) 2000 = false ∧ v ≠ []) ∧
    (∀ cl, (extract_from_raw_text text).claimant = some cl →
      (∀ v, cl.name = some v →
        _is_form_label_or_placeholder (some v) 200 = false ∧ v ≠ []) ∧
      (∀ v, cl.phone = some v →
        _is_form_label_or_placeholder (some v) 30 = false ∧ v ≠ []) ∧
      (∀ v, cl.email = some v →
        _is_form_label_or_placeholder (some v) 200 = false ∧ v ≠ [])) ∧
    (∀ a, (extract_from_raw_text text).asset = some a →
      a.asset_type = some "vehicle".data ∧
      (∀ v, a.asset_id = some v →
        _is_form_label_or_placeholder (some v) 200 = false ∧ v ≠ []) ∧
      (∀ v, a.make = some v →
        v = [] ∨ _is_form_label_or_placeholder (some v) 50 = false) ∧
      (∀ v, a.model = some v →
        v = [] ∨ _is_form_label_or_placeholder (some v) 50 = false)) ∧
    (∀ v, (extract_from_raw_text text).claim_type = some v →
      _is_form_label_or_placeholder (some v) 200 = false ∧ v ≠ []) ∧
    _is_form_label_or_placeholder (some "vehicle".data) 200 = true := by
  have hname_pass : ∀ v, extractPolicyholderName text = some v →
      _is_form_label_or_placeholder (some v) 200 = false ∧ v ≠ [] := by
    intro v h
    rcases extractPolicyholderName_source h with h | h <;>
    · obtain ⟨g, _, _, hf⟩ := acceptCapTrunc_some h
      exact ⟨hf, filter_ne_nil hf⟩
  refine ⟨?_, ?_, ?_, ?_, ?_, ?_, ?_, ?_, ?_, ?_, by decide⟩
  · intro v h
    rcases extractPolicyNumber_source h with h | h | h <;>
    · obtain ⟨g, _, _, hf⟩ := acceptCap_some h
      exact ⟨hf, filter_ne_nil hf⟩
  · exact hname_pass
  · intro v h
    obtain ⟨⟨c, t, rfl, hcd⟩, hchars, hnl⟩ := extractIncidentTime_props h
    exact ⟨filter_false_time hcd hchars hnl, by simp⟩
  · intro v h
    rcases extractLocationStreet_source h with h | h <;>
    · obtain ⟨g, _, _, hf⟩ := acceptCapTrunc_some h
      exact ⟨hf, filter_ne_nil hf⟩
  · intro v h
    obtain ⟨g, _, _, hf⟩ := acceptCap_some h
    exact ⟨hf, filter_ne_nil hf⟩
  · intro v h
    obtain ⟨g, _, _, hf⟩ := acceptCap_some h
    exact ⟨hf, filter_ne_nil hf⟩
  · intro v h
    obtain ⟨c, hc⟩ := extractDescription_source h
    obtain ⟨g, _, _, hf⟩ := acceptCapTrunc_some hc
    exact ⟨hf, filter_ne_nil hf⟩
  · intro cl h
    obtain ⟨hnm, hph, hem⟩ := extractClaimant_fields h
    refine ⟨?_, ?_, ?_⟩
    · intro v hv
      rcases hnm with hn | hn | ⟨hn, _⟩
      · rw [hv] at hn
        obtain ⟨g, _, _, hf⟩ := acceptCap_some hn
        exact ⟨hf, filter_ne_nil hf⟩
      · rw [hv] at hn
        obtain ⟨g, _, _, hf⟩ := acceptCap_some hn
        exact ⟨hf, filter_ne_nil hf⟩
      · rw [hv] at hn
        exact hname_pass v hn
    · intro v hv
      obtain ⟨g, _, _, hf⟩ := acceptCapTrunc_some (hph v hv)
      exact ⟨hf, filter_ne_nil hf⟩
    · intro v hv
      obtain ⟨ev, hev, hveq⟩ := hem v hv
      obtain ⟨hne, hat, hnws⟩ := emailCap_chars hev
      have hvv : v = ev := by rw [hveq, pyStrip_of_no_ws hnws]
      subst hvv
      exact ⟨filter_false_email hne hat hnws, hne⟩
  · intro a h
    obtain ⟨a0, ha0, haeq⟩ := Option.map_eq_some'.mp h
    obtain ⟨hty, hid, hmk, hmd⟩ := extractAsset_fields ha0
    obtain ⟨sty, sid, smk, smd⟩ := syncAsset_fields a0
    subst haeq
    refine ⟨by rw [sty, hty], ?_, ?_, ?_⟩
    · intro v hv
      rw [sid, hid] at hv
      obtain ⟨v0, hv0, hveq⟩ := Option.map_eq_some'.mp hv
      obtain ⟨hlen, hchars⟩ := vinCap_chars hv0
      have hnws : ∀ c ∈ v0, isPySpace c = false := fun c hc => vin_not_ws (hchars c hc)
      have hvv : v = v0 := by rw [← hveq, pyStrip_of_no_ws hnws]
      subst hvv
      refine ⟨filter_false_vin hlen hchars, ?_⟩
      intro hnil
      rw [hnil] at hlen
      simp at hlen
    · intro v hv
      rw [smk, hmk] at hv
      exact makeModelVal_cases hv
    · intro v hv
      rw [smd, hmd] at hv
      exact makeModelVal_cases hv
  · intro v hv
    rcases claimType_cases text with h | h | h <;>
    · rw [h] at hv
      have := Option.some_inj.mp hv
      subst this
      exact ⟨by decide, by decide⟩

set_option maxRecDepth 8000 in
/-- C8 amended witness: a concrete accepted policy number is non-empty and
classifier-accepted. -/
theorem populated_fields_amended_witness :
    _is_form_label_or_placeholder (some "X1".data) 50 = false ∧ "X1".data ≠ [] :=
  (populated_fields_amended "POLICY NUMBER: X1".data).1 "X1".data (by decide)
